import Mathlib

/-
Verification of the federated statistics aggregation core
(fed_analytics_app: client_app.query and server_app.aggregate_features).

Modelling conventions:
- floats are modelled as exact rationals; `Option ℚ` (`MVal`) adds a `none`
  value for NaN (in particular a missing CSV cell, which pandas loads as NaN,
  and any arithmetic result involving it);
- Python dicts are modelled as maps `String → Option _`;
- a raised exception is an `Except.error` / `Option.none` at the
  corresponding point of the model.
-/

namespace FedAnalytics

/-- A float value in a metric record or a dataset cell; `none` models NaN
(for a dataset cell: a missing value, which pandas loads as NaN). -/
abbrev MVal := Option ℚ

/-- Floating-point addition on such values: NaN absorbs. -/
def mvAdd : MVal → MVal → MVal
  | some a, some b => some (a + b)
  | _, _ => none

/-- One column of a node's local dataframe. -/
abbrev Column := List MVal

/-- A node's local dataset (the `pd.read_csv` result): named columns. -/
abbrev Dataset := List (String × Column)

/-- `df.columns`. -/
def columnsOf (d : Dataset) : List String := d.map Prod.fst

/-- `df[feature]`: the column with the given name (empty if absent; the
source only accesses it after a membership check). -/
def getCol : Dataset → String → Column
  | [], _ => []
  | (k, c) :: rest, f => if k = f then c else getCol rest f

/-- Python `sum(df[feature])`: builtin sum, a left fold from 0, NaN absorbing. -/
def pySum (c : Column) : MVal := c.foldl mvAdd (some 0)

/-- `df[feature] ** 2`: elementwise square (NaN stays NaN). -/
def colSq (c : Column) : Column := c.map (fun x => x.map (fun v => v * v))

/-- Python `sum(df[feature] ** 2)`. -/
def pySumSq (c : Column) : MVal := pySum (colSq c)

/-- The metrics dictionary a client builds: insertion-ordered string keys. -/
abbrev Metrics := List (String × MVal)

/-- Dict access `results[key]`: first matching key; `none` models a KeyError. -/
def lookupMetric : Metrics → String → Option MVal
  | [], _ => none
  | (k, v) :: rest, key => if k = key then some v else lookupMetric rest key

/-- The metric entries `query` adds for one feature — the inner
`for agg in feature_aggregation` loop of `client_app.query`; an unrecognized
method only prints a message and adds nothing. -/
def featureMetrics (d : Dataset) (feature : String) (aggs : List String) : Metrics :=
  aggs.flatMap fun agg =>
    if agg = "mean" then
      [(feature ++ "_mean_sum", pySum (getCol d feature)),
       (feature ++ "_mean_count", some ((getCol d feature).length : ℚ))]
    else if agg = "std" then
      [(feature ++ "_std_sum", pySum (getCol d feature)),
       (feature ++ "_std_count", some ((getCol d feature).length : ℚ)),
       (feature ++ "_std_sum_sqd", pySumSq (getCol d feature))]
    else []

/-- `client_app.query`: raises (models: `Except.error`) on the first requested
feature missing from the local dataframe, otherwise returns the metrics of all
requested features in order. The raised exception makes the whole node reply an
error reply, so no metrics at all are delivered in that case. -/
def query (d : Dataset) (selected aggs : List String) : Except String Metrics :=
  match selected with
  | [] => .ok []
  | f :: fs =>
    if f ∈ columnsOf d then
      match query d fs aggs with
      | .ok m => .ok (featureMetrics d f aggs ++ m)
      | .error e => .error e
    else .error ("Feature " ++ f ++ " not found in dataset columns.")

/-- A reply from one node: `none` models `message.has_error()`. -/
abbrev NodeReply := Option Metrics

/-- Accumulated sufficient statistics of one `(feature, method)` dict entry. -/
structure Totals where
  sum : MVal
  count : MVal
  sum_sqd : MVal
deriving DecidableEq, Repr

/-- A fresh entry: all components zero. -/
def zeroTotals : Totals := ⟨some 0, some 0, some 0⟩

/-- The inner dict `aggregated_stats[feature]`, as a finite map. -/
abbrev FeatureStats := String → Option Totals

/-- The dict `aggregated_stats`. -/
abbrev AggStats := String → Option FeatureStats

/-- Dict update (insert or overwrite). -/
def fupd {α : Type} (m : String → Option α) (k : String) (v : α) :
    String → Option α :=
  fun x => if x = k then some v else m x

/-- `aggregated_stats[feature][method]`. -/
def entry (stats : AggStats) (f m : String) : Option Totals :=
  (stats f).bind fun fs => fs m

/-- `_initialize_aggregation_stats`, inner dict for one feature: an entry per
recognized requested method. (The mean dict has no `sum_sqd` key in the source;
since nothing ever reads or writes it for mean, it is kept at 0 here.) -/
def init_feature_stats (aggs : List String) : FeatureStats :=
  aggs.foldl
    (fun fs agg =>
      if agg = "mean" then fupd fs "mean" zeroTotals
      else if agg = "std" then fupd fs "std" zeroTotals
      else fs)
    (fun _ => none)

/-- `_initialize_aggregation_stats`. -/
def init_aggregation_stats (selected aggs : List String) : AggStats :=
  selected.foldl (fun st f => fupd st f (init_feature_stats aggs)) (fun _ => none)

/-- The `+=` updates of the mean branch of `_accumulate_statistics`. -/
def updMean (t : Totals) (s c : MVal) : Totals :=
  ⟨mvAdd t.sum s, mvAdd t.count c, t.sum_sqd⟩

/-- The `+=` updates of the std branch of `_accumulate_statistics`. -/
def updStd (t : Totals) (s c q : MVal) : Totals :=
  ⟨mvAdd t.sum s, mvAdd t.count c, mvAdd t.sum_sqd q⟩

/-- `_accumulate_statistics`: add one reply's metrics for one
`(feature, method)` into the aggregation dict. `none` models an uncaught
KeyError (missing dict entry or missing metric key). An unrecognized method
hits no branch and changes nothing. -/
def accumulate_statistics (stats : AggStats) (results : Metrics)
    (feature agg_method : String) : Option AggStats :=
  if agg_method = "mean" then
    match stats feature with
    | none => none
    | some fs =>
      match fs "mean" with
      | none => none
      | some t =>
        match lookupMetric results (feature ++ "_mean_sum"),
              lookupMetric results (feature ++ "_mean_count") with
        | some s, some c => some (fupd stats feature (fupd fs "mean" (updMean t s c)))
        | _, _ => none
  else if agg_method = "std" then
    match stats feature with
    | none => none
    | some fs =>
      match fs "std" with
      | none => none
      | some t =>
        match lookupMetric results (feature ++ "_std_sum"),
              lookupMetric results (feature ++ "_std_count"),
              lookupMetric results (feature ++ "_std_sum_sqd") with
        | some s, some c, some q => some (fupd stats feature (fupd fs "std" (updStd t s c q)))
        | _, _, _ => none
  else some stats

/-- The `for feature in selected_features: for agg_method in feature_aggregation`
accumulation loops of `aggregate_features`, for one valid reply. -/
def accumulate_reply (selected aggs : List String) (results : Metrics)
    (stats : AggStats) : Option AggStats :=
  selected.foldlM
    (fun st f => aggs.foldlM (fun st2 agg => accumulate_statistics st2 results f agg) st)
    stats

/-- The loop over all replies of `aggregate_features`: error replies are
skipped (`continue`), valid replies are accumulated. -/
def accumulate_all (selected aggs : List String) (replies : List NodeReply)
    (stats : AggStats) : Option AggStats :=
  replies.foldlM
    (fun st r =>
      match r with
      | none => some st
      | some m => accumulate_reply selected aggs m st)
    stats

/-- `valid_message_count` at the end of the reply loop. -/
def valid_count (replies : List NodeReply) : Nat :=
  (replies.filter (fun r => r.isSome)).length

/-- The exact value of one float the aggregator produces: a rational (mean
path), the square root of a rational (std path), or NaN. -/
inductive AggVal where
  | rat (q : ℚ)
  | sqrt (q : ℚ)
  | nan
deriving DecidableEq, Repr

/-- Float division for the mean path: NaN absorbs (the zero divisor case is
unreachable, the source checks `count == 0` first). -/
def mvDivVal : MVal → MVal → AggVal
  | some a, some b => .rat (a / b)
  | _, _ => .nan

/-- Outcome of `_compute_final_statistics` for one entry: a returned float, or
a raised ValueError (caught by the caller and turned into a null entry plus a
warning log). -/
inductive EntryOut where
  | value (v : AggVal)
  | err (msg : String)
deriving DecidableEq, Repr

/-- `_compute_final_statistics`. `none` models an uncaught KeyError on the
aggregation dict (unreachable from `aggregate_features`, which initializes the
entries it later reads). Comparisons with a NaN count are false in Python, so a
NaN count falls through to NaN arithmetic, never into the raise branches. -/
def compute_final_statistics (stats : AggStats) (feature agg_method : String) :
    Option EntryOut :=
  if agg_method = "mean" then
    match entry stats feature "mean" with
    | none => none
    | some t =>
      if t.count = some 0 then
        some (.err ("No data available for feature " ++ feature ++ " mean calculation"))
      else some (.value (mvDivVal t.sum t.count))
  else if agg_method = "std" then
    match entry stats feature "std" with
    | none => none
    | some t =>
      match t.count with
      | some c =>
        if c ≤ 1 then
          some (.err ("Insufficient data for feature " ++ feature ++
            " std calculation (need > 1 samples)"))
        else
          match t.sum, t.sum_sqd with
          | some s, some q =>
            some (.value (.sqrt
              (let m := s / c
               let v := (q - c * m ^ 2) / (c - 1)
               if v < 0 then 0 else v)))
          | _, _ => some (.value .nan)
      | none => some (.value .nan)
  else some (.err ("Unsupported aggregation method: " ++ agg_method))

/-- The `final_stats` dict: feature → method → (float | None); the outer
`none` means "entry not present". -/
abbrev FinalMap := String → String → Option (Option AggVal)

/-- `final_stats[feature][agg_method] = v`. -/
def setEntry (fm : FinalMap) (f m : String) (v : Option AggVal) : FinalMap :=
  fun g m2 => if g = f ∧ m2 = m then some v else fm g m2

/-- `final_stats[feature] = {}`. -/
def clearFeature (fm : FinalMap) (f : String) : FinalMap :=
  fun g m2 => if g = f then none else fm g m2

/-- The final double loop of `aggregate_features`: every entry is computed
inside `try/except ValueError`; a caught error yields a null entry and a
warning log line. A KeyError (`none` from `compute_final_statistics`) is not
caught and aborts. Returns the final map together with the warning log. -/
def finalize (stats : AggStats) (selected aggs : List String) :
    Option (FinalMap × List String) :=
  selected.foldlM
    (fun acc f =>
      aggs.foldlM
        (fun acc2 agg =>
          match compute_final_statistics stats f agg with
          | none => none
          | some (.value v) => some (setEntry acc2.1 f agg (some v), acc2.2)
          | some (.err msg) =>
              some (setEntry acc2.1 f agg none, acc2.2 ++ ["Warning: " ++ msg]))
        (clearFeature acc.1 f, acc.2))
    ((fun _ _ => none), ([] : List String))

/-- How a round can fail: an uncaught KeyError, or the
"No valid messages received from clients" ValueError. -/
inductive AggError where
  | keyError
  | noValidReplies
deriving DecidableEq, Repr

/-- The terminal output of one round. -/
structure RoundResult where
  stats : FinalMap
  warnings : List String

/-- `aggregate_features`: accumulate all valid replies, fail the round if none
was valid, then compute the final statistics entry by entry. -/
def aggregate_features (replies : List NodeReply) (selected aggs : List String) :
    Except AggError RoundResult :=
  match accumulate_all selected aggs replies (init_aggregation_stats selected aggs) with
  | none => .error .keyError
  | some stats =>
    if valid_count replies = 0 then .error .noValidReplies
    else
      match finalize stats selected aggs with
      | none => .error .keyError
      | some (fm, ws) => .ok ⟨fm, ws⟩

/- Spec-side definitions, following the specification text rather than the
source (used to compare the source's behaviour against the spec's words). -/

/-- Modelled from the spec: the number of non-missing rows of a column
("`count` equals the number of non-missing rows for that feature"). -/
def nonMissingCount (c : Column) : Nat := (c.filter (fun x => x.isSome)).length

/-- Modelled from the spec: the sample (Bessel-corrected) variance of a list
of values, `(Σ x² − n · mean²) / (n − 1)` with `mean = Σ x / n`. -/
def sampleVariance (l : List ℚ) : ℚ :=
  ((l.map fun x => x * x).sum - l.length * (l.sum / l.length) ^ 2) / (l.length - 1)

/-- The union of all nodes' rows for one feature, in node order. -/
def unionCol (ds : List Dataset) (g : String) : Column :=
  (ds.map fun d => getCol d g).flatten

/-- A reply payload that carries every key the server-side accumulation reads
for the requested features and methods. -/
def WellFormed (selected aggs : List String) (m : Metrics) : Prop :=
  ∀ f ∈ selected,
    ("mean" ∈ aggs →
      (lookupMetric m (f ++ "_mean_sum")).isSome = true ∧
      (lookupMetric m (f ++ "_mean_count")).isSome = true) ∧
    ("std" ∈ aggs →
      (lookupMetric m (f ++ "_std_sum")).isSome = true ∧
      (lookupMetric m (f ++ "_std_count")).isSome = true ∧
      (lookupMetric m (f ++ "_std_sum_sqd")).isSome = true)

/-- How a computed entry outcome appears in `final_stats`: a value, or `None`
for a caught ValueError. -/
def toFinal : EntryOut → Option AggVal
  | .value v => some v
  | .err _ => none

/-- The whole payload a successful `query` returns (provably its value when
every selected feature exists, see `query_eq_clientMetrics`). -/
def clientMetrics (d : Dataset) (selected aggs : List String) : Metrics :=
  selected.flatMap fun f => featureMetrics d f aggs

/- Arithmetic facts about NaN-absorbing float addition and Python sums. -/

theorem mvAdd_some (a b : ℚ) : mvAdd (some a) (some b) = some (a + b) := rfl

theorem mvAdd_zero_left (x : MVal) : mvAdd (some 0) x = x := by
  cases x <;> simp [mvAdd]

theorem mvAdd_zero_right (x : MVal) : mvAdd x (some 0) = x := by
  cases x <;> simp [mvAdd]

theorem mvAdd_assoc (x y z : MVal) : mvAdd (mvAdd x y) z = mvAdd x (mvAdd y z) := by
  cases x <;> cases y <;> cases z <;> simp [mvAdd, add_assoc]

theorem foldl_mvAdd (c : Column) : ∀ x : MVal, c.foldl mvAdd x = mvAdd x (pySum c) := by
  induction c with
  | nil => intro x; simp [pySum, mvAdd_zero_right]
  | cons y c ih =>
    intro x
    have hy : pySum (y :: c) = mvAdd y (pySum c) := by
      show c.foldl mvAdd (mvAdd (some 0) y) = _
      rw [mvAdd_zero_left, ih y]
    simp only [List.foldl_cons, hy, ih (mvAdd x y), mvAdd_assoc]

theorem pySum_cons (y : MVal) (c : Column) : pySum (y :: c) = mvAdd y (pySum c) := by
  show c.foldl mvAdd (mvAdd (some 0) y) = _
  rw [mvAdd_zero_left, foldl_mvAdd]

theorem pySum_append (a b : Column) : pySum (a ++ b) = mvAdd (pySum a) (pySum b) := by
  show (a ++ b).foldl mvAdd (some 0) = _
  rw [List.foldl_append, foldl_mvAdd]
  rfl

theorem pySum_map_some (l : List ℚ) : pySum (l.map some) = some l.sum := by
  induction l with
  | nil => simp [pySum]
  | cons x l ih => simp [pySum_cons, ih, mvAdd]

theorem colSq_append (a b : Column) : colSq (a ++ b) = colSq a ++ colSq b := by
  simp [colSq]

theorem pySumSq_append (a b : Column) :
    pySumSq (a ++ b) = mvAdd (pySumSq a) (pySumSq b) := by
  simp [pySumSq, colSq_append, pySum_append]

theorem colSq_map_some (l : List ℚ) :
    colSq (l.map some) = (l.map fun v => v * v).map some := by
  simp [colSq, List.map_map]

theorem pySumSq_map_some (l : List ℚ) :
    pySumSq (l.map some) = some ((l.map fun v => v * v).sum) := by
  rw [pySumSq, colSq_map_some, pySum_map_some]

theorem pySum_nonneg (c : Column) (h : ∀ x ∈ c, ∀ v, x = some v → 0 ≤ v) :
    ∀ q : ℚ, pySum c = some q → 0 ≤ q := by
  induction c with
  | nil =>
    intro q hq
    have h0 : (0 : ℚ) = q := by simpa [pySum] using hq
    rw [← h0]
  | cons x c ih =>
    intro q hq
    rw [pySum_cons] at hq
    cases hx : x with
    | none => rw [hx] at hq; simp [mvAdd] at hq
    | some v =>
      rw [hx] at hq
      cases hc : pySum c with
      | none => rw [hc] at hq; simp [mvAdd] at hq
      | some q' =>
        rw [hc] at hq
        simp [mvAdd] at hq
        have h1 : 0 ≤ v := h x (List.mem_cons_self x c) v hx
        have h2 : 0 ≤ q' := ih (fun y hy => h y (List.mem_cons_of_mem x hy)) q' hc
        linarith

theorem pySumSq_nonneg (c : Column) : ∀ q : ℚ, pySumSq c = some q → 0 ≤ q := by
  apply pySum_nonneg
  intro x hx v hv
  simp [colSq] at hx
  obtain ⟨y, _, hy⟩ := hx
  cases y with
  | none => rw [← hy] at hv; simp at hv
  | some w =>
    rw [← hy] at hv
    simp at hv
    rw [← hv]
    exact mul_self_nonneg w

/- String-key disjointness: the five metric key suffixes never collide, for
any feature names. -/

/-- The suffixes of all metric keys `query` can emit. -/
def statSuffixes : List String :=
  ["_mean_sum", "_mean_count", "_std_sum", "_std_count", "_std_sum_sqd"]

theorem append_ne_left {f g : String} (h : f ≠ g) (s : String) :
    f ++ s ≠ g ++ s := by
  intro he
  apply h
  apply String.ext
  have hd := congrArg String.data he
  rw [String.data_append, String.data_append] at hd
  exact List.append_cancel_right hd

theorem append_ne_right {s t : String} (h : s ≠ t) (g : String) :
    g ++ s ≠ g ++ t := by
  intro he
  apply h
  apply String.ext
  have hd := congrArg String.data he
  rw [String.data_append, String.data_append] at hd
  exact List.append_cancel_left hd

theorem append_ne_append (s t : String)
    (h : s.data.reverse.take (min s.data.length t.data.length) ≠
      t.data.reverse.take (min s.data.length t.data.length)) (f g : String) :
    f ++ s ≠ g ++ t := by
  intro he
  apply h
  have hd := congrArg String.data he
  rw [String.data_append, String.data_append] at hd
  have hr := congrArg List.reverse hd
  rw [List.reverse_append, List.reverse_append] at hr
  calc s.data.reverse.take (min s.data.length t.data.length)
      = (s.data.reverse ++ f.data.reverse).take (min s.data.length t.data.length) := by
        rw [List.take_append_of_le_length]
        simp [List.length_reverse]
    _ = (t.data.reverse ++ g.data.reverse).take (min s.data.length t.data.length) := by
        rw [hr]
    _ = t.data.reverse.take (min s.data.length t.data.length) := by
        rw [List.take_append_of_le_length]
        simp [List.length_reverse]

theorem key_ne_cross {s t : String} (hs : s ∈ statSuffixes) (ht : t ∈ statSuffixes)
    (hst : s ≠ t) (f g : String) : f ++ s ≠ g ++ t := by
  simp [statSuffixes] at hs ht
  rcases hs with rfl | rfl | rfl | rfl | rfl <;>
    rcases ht with rfl | rfl | rfl | rfl | rfl <;>
      first
        | exact absurd rfl hst
        | exact append_ne_append _ _ (by decide) f g

theorem key_ne_of_feature_ne {f g : String} (h : f ≠ g) {s t : String}
    (hs : s ∈ statSuffixes) (ht : t ∈ statSuffixes) : f ++ s ≠ g ++ t := by
  by_cases hst : s = t
  · subst hst; exact append_ne_left h s
  · exact key_ne_cross hs ht hst f g

/- Lookup facts about the metrics dictionaries `query` builds. -/

theorem lookupMetric_append_of_some {a : Metrics} {k : String} {v : MVal}
    (h : lookupMetric a k = some v) (b : Metrics) :
    lookupMetric (a ++ b) k = some v := by
  induction a with
  | nil => simp [lookupMetric] at h
  | cons p rest ih =>
    obtain ⟨pk, pv⟩ := p
    by_cases hk : pk = k
    · subst hk
      simp [lookupMetric] at h ⊢
      exact h
    · simp [lookupMetric, hk] at h ⊢
      exact ih h

theorem lookupMetric_append_of_none {a : Metrics} {k : String}
    (h : lookupMetric a k = none) (b : Metrics) :
    lookupMetric (a ++ b) k = lookupMetric b k := by
  induction a with
  | nil => simp
  | cons p rest ih =>
    obtain ⟨pk, pv⟩ := p
    by_cases hk : pk = k
    · subst hk; simp [lookupMetric] at h
    · simp [lookupMetric, hk] at h ⊢
      exact ih h

theorem lookupMetric_eq_none {m : Metrics} {k : String}
    (h : ∀ p ∈ m, p.1 ≠ k) : lookupMetric m k = none := by
  induction m with
  | nil => rfl
  | cons p rest ih =>
    obtain ⟨pk, pv⟩ := p
    have h1 : pk ≠ k := h (pk, pv) (List.mem_cons_self (pk, pv) rest)
    simp only [lookupMetric]
    rw [if_neg h1]
    exact ih fun q hq => h q (List.mem_cons_of_mem (pk, pv) hq)

theorem featureMetrics_keys (d : Dataset) (g : String) (aggs : List String) :
    ∀ p ∈ featureMetrics d g aggs, ∃ s ∈ statSuffixes, p.1 = g ++ s := by
  intro p hp
  simp only [featureMetrics, List.mem_flatMap] at hp
  obtain ⟨a, _, hp⟩ := hp
  by_cases h1 : a = "mean"
  · rw [if_pos h1] at hp
    simp at hp
    rcases hp with hp | hp <;> rw [hp] <;> simp [statSuffixes]
  · rw [if_neg h1] at hp
    by_cases h2 : a = "std"
    · rw [if_pos h2] at hp
      simp at hp
      rcases hp with hp | hp | hp <;> rw [hp] <;> simp [statSuffixes]
    · rw [if_neg h2] at hp
      simp at hp

theorem lookupMetric_featureMetrics_ne {f g : String} (h : g ≠ f) (d : Dataset)
    (aggs : List String) {s : String} (hs : s ∈ statSuffixes) :
    lookupMetric (featureMetrics d f aggs) (g ++ s) = none := by
  apply lookupMetric_eq_none
  intro p hp
  obtain ⟨t, ht, hpt⟩ := featureMetrics_keys d f aggs p hp
  rw [hpt]
  exact key_ne_of_feature_ne (fun he => h he.symm) ht hs

theorem lookup_featureMetrics (d : Dataset) (g : String) (aggs : List String) :
    ("mean" ∈ aggs →
      lookupMetric (featureMetrics d g aggs) (g ++ "_mean_sum") =
        some (pySum (getCol d g)) ∧
      lookupMetric (featureMetrics d g aggs) (g ++ "_mean_count") =
        some (some ((getCol d g).length : ℚ))) ∧
    ("std" ∈ aggs →
      lookupMetric (featureMetrics d g aggs) (g ++ "_std_sum") =
        some (pySum (getCol d g)) ∧
      lookupMetric (featureMetrics d g aggs) (g ++ "_std_count") =
        some (some ((getCol d g).length : ℚ)) ∧
      lookupMetric (featureMetrics d g aggs) (g ++ "_std_sum_sqd") =
        some (pySumSq (getCol d g))) := by
  induction aggs with
  | nil => simp
  | cons a rest ih =>
    have hsplit : featureMetrics d g (a :: rest) =
        (if a = "mean" then
          [(g ++ "_mean_sum", pySum (getCol d g)),
           (g ++ "_mean_count", some ((getCol d g).length : ℚ))]
        else if a = "std" then
          [(g ++ "_std_sum", pySum (getCol d g)),
           (g ++ "_std_count", some ((getCol d g).length : ℚ)),
           (g ++ "_std_sum_sqd", pySumSq (getCol d g))]
        else []) ++ featureMetrics d g rest := by
      simp [featureMetrics]
    by_cases h1 : a = "mean"
    · subst h1
      rw [hsplit, if_pos rfl]
      constructor
      · intro _
        constructor
        · apply lookupMetric_append_of_some
          simp [lookupMetric]
        · apply lookupMetric_append_of_some
          simp only [lookupMetric]
          rw [if_neg (append_ne_right (show "_mean_sum" ≠ "_mean_count" by decide) g)]
          simp
      · intro hstd
        have hstd2 : "std" ∈ rest := by
          rcases List.mem_cons.mp hstd with h | h
          · exact absurd h.symm (by decide)
          · exact h
        have hne1 := append_ne_right (show "_mean_sum" ≠ "_std_sum" by decide) g
        have hne2 := append_ne_right (show "_mean_count" ≠ "_std_sum" by decide) g
        have hne3 := append_ne_right (show "_mean_sum" ≠ "_std_count" by decide) g
        have hne4 := append_ne_right (show "_mean_count" ≠ "_std_count" by decide) g
        have hne5 := append_ne_right (show "_mean_sum" ≠ "_std_sum_sqd" by decide) g
        have hne6 := append_ne_right (show "_mean_count" ≠ "_std_sum_sqd" by decide) g
        refine ⟨?_, ?_, ?_⟩
        · rw [lookupMetric_append_of_none]
          · exact (ih.2 hstd2).1
          · simp only [lookupMetric]
            rw [if_neg hne1, if_neg hne2]
        · rw [lookupMetric_append_of_none]
          · exact (ih.2 hstd2).2.1
          · simp only [lookupMetric]
            rw [if_neg hne3, if_neg hne4]
        · rw [lookupMetric_append_of_none]
          · exact (ih.2 hstd2).2.2
          · simp only [lookupMetric]
            rw [if_neg hne5, if_neg hne6]
    · by_cases h2 : a = "std"
      · subst h2
        rw [hsplit, if_neg (by decide), if_pos rfl]
        constructor
        · intro hmean
          have hmean2 : "mean" ∈ rest := by
            rcases List.mem_cons.mp hmean with h | h
            · exact absurd h.symm (by decide)
            · exact h
          have hne1 := append_ne_right (show "_std_sum" ≠ "_mean_sum" by decide) g
          have hne2 := append_ne_right (show "_std_count" ≠ "_mean_sum" by decide) g
          have hne3 := append_ne_right (show "_std_sum_sqd" ≠ "_mean_sum" by decide) g
          have hne4 := append_ne_right (show "_std_sum" ≠ "_mean_count" by decide) g
          have hne5 := append_ne_right (show "_std_count" ≠ "_mean_count" by decide) g
          have hne6 := append_ne_right (show "_std_sum_sqd" ≠ "_mean_count" by decide) g
          constructor
          · rw [lookupMetric_append_of_none]
            · exact (ih.1 hmean2).1
            · simp only [lookupMetric]
              rw [if_neg hne1, if_neg hne2, if_neg hne3]
          · rw [lookupMetric_append_of_none]
            · exact (ih.1 hmean2).2
            · simp only [lookupMetric]
              rw [if_neg hne4, if_neg hne5, if_neg hne6]
        · intro _
          refine ⟨?_, ?_, ?_⟩
          · apply lookupMetric_append_of_some
            simp [lookupMetric]
          · apply lookupMetric_append_of_some
            simp only [lookupMetric]
            rw [if_neg (append_ne_right (show "_std_sum" ≠ "_std_count" by decide) g)]
            simp
          · apply lookupMetric_append_of_some
            simp only [lookupMetric]
            rw [if_neg (append_ne_right (show "_std_sum" ≠ "_std_sum_sqd" by decide) g),
              if_neg (append_ne_right (show "_std_count" ≠ "_std_sum_sqd" by decide) g)]
            simp
      · rw [hsplit, if_neg h1, if_neg h2]
        simp only [List.nil_append]
        constructor
        · intro hmean
          have hmean2 : "mean" ∈ rest := by
            rcases List.mem_cons.mp hmean with h | h
            · exact absurd h.symm h1
            · exact h
          exact ih.1 hmean2
        · intro hstd
          have hstd2 : "std" ∈ rest := by
            rcases List.mem_cons.mp hstd with h | h
            · exact absurd h.symm h2
            · exact h
          exact ih.2 hstd2

theorem query_eq_clientMetrics (d : Dataset) (selected aggs : List String)
    (h : ∀ f ∈ selected, f ∈ columnsOf d) :
    query d selected aggs = .ok (clientMetrics d selected aggs) := by
  induction selected with
  | nil => rfl
  | cons f fs ih =>
    have hf : f ∈ columnsOf d := h f (List.mem_cons_self f fs)
    have hrest := ih fun g hg => h g (List.mem_cons_of_mem f hg)
    simp only [query, if_pos hf, hrest, clientMetrics, List.flatMap_cons]

theorem lookup_clientMetrics (d : Dataset) (selected aggs : List String)
    (g : String) (hg : g ∈ selected) :
    ("mean" ∈ aggs →
      lookupMetric (clientMetrics d selected aggs) (g ++ "_mean_sum") =
        some (pySum (getCol d g)) ∧
      lookupMetric (clientMetrics d selected aggs) (g ++ "_mean_count") =
        some (some ((getCol d g).length : ℚ))) ∧
    ("std" ∈ aggs →
      lookupMetric (clientMetrics d selected aggs) (g ++ "_std_sum") =
        some (pySum (getCol d g)) ∧
      lookupMetric (clientMetrics d selected aggs) (g ++ "_std_count") =
        some (some ((getCol d g).length : ℚ)) ∧
      lookupMetric (clientMetrics d selected aggs) (g ++ "_std_sum_sqd") =
        some (pySumSq (getCol d g))) := by
  induction selected with
  | nil => cases hg
  | cons f fs ih =>
    have hsplit : clientMetrics d (f :: fs) aggs =
        featureMetrics d f aggs ++ clientMetrics d fs aggs := by
      simp [clientMetrics]
    by_cases hgf : g = f
    · subst hgf
      rw [hsplit]
      constructor
      · intro hmean
        obtain ⟨h1, h2⟩ := (lookup_featureMetrics d g aggs).1 hmean
        exact ⟨lookupMetric_append_of_some h1 _, lookupMetric_append_of_some h2 _⟩
      · intro hstd
        obtain ⟨h1, h2, h3⟩ := (lookup_featureMetrics d g aggs).2 hstd
        exact ⟨lookupMetric_append_of_some h1 _, lookupMetric_append_of_some h2 _,
          lookupMetric_append_of_some h3 _⟩
    · have hgfs : g ∈ fs := by
        rcases List.mem_cons.mp hg with h | h
        · exact absurd h hgf
        · exact h
      rw [hsplit]
      have hnone : ∀ s ∈ statSuffixes,
          lookupMetric (featureMetrics d f aggs) (g ++ s) = none :=
        fun s hs => lookupMetric_featureMetrics_ne hgf d aggs hs
      constructor
      · intro hmean
        obtain ⟨h1, h2⟩ := (ih hgfs).1 hmean
        constructor
        · rw [lookupMetric_append_of_none (hnone _ (by simp [statSuffixes]))]
          exact h1
        · rw [lookupMetric_append_of_none (hnone _ (by simp [statSuffixes]))]
          exact h2
      · intro hstd
        obtain ⟨h1, h2, h3⟩ := (ih hgfs).2 hstd
        refine ⟨?_, ?_, ?_⟩
        · rw [lookupMetric_append_of_none (hnone _ (by simp [statSuffixes]))]
          exact h1
        · rw [lookupMetric_append_of_none (hnone _ (by simp [statSuffixes]))]
          exact h2
        · rw [lookupMetric_append_of_none (hnone _ (by simp [statSuffixes]))]
          exact h3

/- The aggregation dict after initialization. -/

theorem init_feature_stats_apply (aggs : List String) (m : String) :
    init_feature_stats aggs m =
      if (m = "mean" ∨ m = "std") ∧ m ∈ aggs then some zeroTotals else none := by
  have main : ∀ (al : List String) (fs : FeatureStats),
      (al.foldl
        (fun fs agg =>
          if agg = "mean" then fupd fs "mean" zeroTotals
          else if agg = "std" then fupd fs "std" zeroTotals
          else fs) fs) m =
      if (m = "mean" ∨ m = "std") ∧ m ∈ al then some zeroTotals else fs m := by
    intro al
    induction al with
    | nil => intro fs; simp
    | cons a rest ih =>
      intro fs
      rw [List.foldl_cons, ih]
      by_cases hrest : (m = "mean" ∨ m = "std") ∧ m ∈ rest
      · rw [if_pos hrest, if_pos ⟨hrest.1, List.mem_cons_of_mem a hrest.2⟩]
      · rw [if_neg hrest]
        by_cases hcons : (m = "mean" ∨ m = "std") ∧ m ∈ a :: rest
        · rw [if_pos hcons]
          have ha : a = m := by
            rcases List.mem_cons.mp hcons.2 with h | h
            · exact h.symm
            · exact absurd ⟨hcons.1, h⟩ hrest
          subst ha
          rcases hcons.1 with hm | hm <;> subst hm <;> simp [fupd]
        · rw [if_neg hcons]
          have ham : ¬ ((m = "mean" ∨ m = "std") ∧ m = a) := by
            intro ⟨hrec, hma⟩
            exact hcons ⟨hrec, by rw [hma]; exact List.mem_cons_self a rest⟩
          by_cases ha1 : a = "mean"
          · subst ha1
            rw [if_pos rfl, fupd]
            rw [if_neg fun hma => ham ⟨Or.inl hma, hma⟩]
          · rw [if_neg ha1]
            by_cases ha2 : a = "std"
            · subst ha2
              rw [if_pos rfl, fupd]
              rw [if_neg fun hma => ham ⟨Or.inr hma, hma⟩]
            · rw [if_neg ha2]
  exact main aggs (fun _ => none)

theorem init_aggregation_stats_apply (selected aggs : List String) (g : String) :
    init_aggregation_stats selected aggs g =
      if g ∈ selected then some (init_feature_stats aggs) else none := by
  have main : ∀ (sl : List String) (st : AggStats),
      (sl.foldl (fun st f => fupd st f (init_feature_stats aggs)) st) g =
      if g ∈ sl then some (init_feature_stats aggs) else st g := by
    intro sl
    induction sl with
    | nil => intro st; simp
    | cons f rest ih =>
      intro st
      rw [List.foldl_cons, ih]
      by_cases hrest : g ∈ rest
      · rw [if_pos hrest, if_pos (List.mem_cons_of_mem f hrest)]
      · rw [if_neg hrest]
        by_cases hgf : g = f
        · rw [if_pos (by rw [hgf]; exact List.mem_cons_self f rest)]
          simp [fupd, hgf]
        · have hnotin : g ∉ f :: rest := by
            intro h
            rcases List.mem_cons.mp h with h | h
            · exact hgf h
            · exact hrest h
          rw [if_neg hnotin]
          simp [fupd, hgf]
  exact main selected (fun _ => none)

theorem entry_init (selected aggs : List String) (g m : String) :
    entry (init_aggregation_stats selected aggs) g m =
      if g ∈ selected ∧ (m = "mean" ∨ m = "std") ∧ m ∈ aggs then some zeroTotals
      else none := by
  rw [entry, init_aggregation_stats_apply]
  by_cases hg : g ∈ selected
  · rw [if_pos hg]
    simp only [Option.some_bind]
    rw [init_feature_stats_apply]
    by_cases hc : (m = "mean" ∨ m = "std") ∧ m ∈ aggs
    · rw [if_pos hc, if_pos ⟨hg, hc.1, hc.2⟩]
    · rw [if_neg hc, if_neg fun h => hc ⟨h.2.1, h.2.2⟩]
  · rw [if_neg hg]
    simp only [Option.none_bind]
    rw [if_neg fun h => hg h.1]

/- Pointwise effect of one `_accumulate_statistics` call on the dict. -/

theorem entry_fupd (stats : AggStats) (fs : FeatureStats) (f : String)
    (hsf : stats f = some fs) (k : String) (u : Totals) (g m : String) :
    entry (fupd stats f (fupd fs k u)) g m =
      if g = f ∧ m = k then some u else entry stats g m := by
  by_cases hg : g = f
  · subst hg
    by_cases hm : m = k
    · subst hm; simp [entry, fupd]
    · simp [entry, fupd, hm, hsf]
  · simp [entry, fupd, hg]

theorem entry_some_inv {stats : AggStats} {f m : String} {t : Totals}
    (h : entry stats f m = some t) :
    ∃ fs, stats f = some fs ∧ fs m = some t := by
  rw [entry] at h
  cases hsf : stats f with
  | none => rw [hsf] at h; simp at h
  | some fs =>
    rw [hsf] at h
    simp only [Option.some_bind] at h
    exact ⟨fs, rfl, h⟩

theorem accumulate_statistics_mean (stats : AggStats) (results : Metrics)
    (f : String) {t : Totals} (ht : entry stats f "mean" = some t)
    {s c : MVal} (hs : lookupMetric results (f ++ "_mean_sum") = some s)
    (hc : lookupMetric results (f ++ "_mean_count") = some c) :
    ∃ stats2, accumulate_statistics stats results f "mean" = some stats2 ∧
      ∀ g m, entry stats2 g m =
        if g = f ∧ m = "mean" then some (updMean t s c) else entry stats g m := by
  obtain ⟨fs, hsf, hfm⟩ := entry_some_inv ht
  refine ⟨fupd stats f (fupd fs "mean" (updMean t s c)), ?_, ?_⟩
  · simp [accumulate_statistics, hsf, hfm, hs, hc]
  · exact entry_fupd stats fs f hsf "mean" (updMean t s c)

theorem accumulate_statistics_std (stats : AggStats) (results : Metrics)
    (f : String) {t : Totals} (ht : entry stats f "std" = some t)
    {s c q : MVal} (hs : lookupMetric results (f ++ "_std_sum") = some s)
    (hc : lookupMetric results (f ++ "_std_count") = some c)
    (hq : lookupMetric results (f ++ "_std_sum_sqd") = some q) :
    ∃ stats2, accumulate_statistics stats results f "std" = some stats2 ∧
      ∀ g m, entry stats2 g m =
        if g = f ∧ m = "std" then some (updStd t s c q) else entry stats g m := by
  obtain ⟨fs, hsf, hfm⟩ := entry_some_inv ht
  refine ⟨fupd stats f (fupd fs "std" (updStd t s c q)), ?_, ?_⟩
  · simp only [accumulate_statistics, hsf, hfm, hs, hc, hq]
    simp
  · exact entry_fupd stats fs f hsf "std" (updStd t s c q)

theorem accumulate_statistics_other (stats : AggStats) (results : Metrics)
    (f : String) {a : String} (h1 : a ≠ "mean") (h2 : a ≠ "std") :
    accumulate_statistics stats results f a = some stats := by
  simp only [accumulate_statistics, if_neg h1, if_neg h2]

theorem accumulate_statistics_some_inv {stats stats2 : AggStats} {results : Metrics}
    {f a : String} (h : accumulate_statistics stats results f a = some stats2) :
    stats2 = stats ∨
      ∃ fs k u, stats f = some fs ∧ (fs k).isSome = true ∧
        stats2 = fupd stats f (fupd fs k u) := by
  by_cases h1 : a = "mean"
  · subst h1
    rw [accumulate_statistics, if_pos rfl] at h
    cases hsf : stats f with
    | none => rw [hsf] at h; simp at h
    | some fs =>
      rw [hsf] at h
      simp only [] at h
      cases hfm : fs "mean" with
      | none => rw [hfm] at h; simp at h
      | some t =>
        rw [hfm] at h
        cases hls : lookupMetric results (f ++ "_mean_sum") with
        | none => rw [hls] at h; simp at h
        | some s =>
          cases hlc : lookupMetric results (f ++ "_mean_count") with
          | none => rw [hls, hlc] at h; simp at h
          | some c =>
            rw [hls, hlc] at h
            simp only [Option.some.injEq] at h
            exact Or.inr ⟨fs, "mean", updMean t s c, rfl, by rw [hfm]; rfl, h.symm⟩
  · by_cases h2 : a = "std"
    · subst h2
      rw [accumulate_statistics, if_neg h1, if_pos rfl] at h
      cases hsf : stats f with
      | none => rw [hsf] at h; simp at h
      | some fs =>
        rw [hsf] at h
        simp only [] at h
        cases hfm : fs "std" with
        | none => rw [hfm] at h; simp at h
        | some t =>
          rw [hfm] at h
          cases hls : lookupMetric results (f ++ "_std_sum") with
          | none => rw [hls] at h; simp at h
          | some s =>
            cases hlc : lookupMetric results (f ++ "_std_count") with
            | none => rw [hls, hlc] at h; simp at h
            | some c =>
              cases hlq : lookupMetric results (f ++ "_std_sum_sqd") with
              | none => rw [hls, hlc, hlq] at h; simp at h
              | some q =>
                rw [hls, hlc, hlq] at h
                simp only [Option.some.injEq] at h
                exact Or.inr ⟨fs, "std", updStd t s c q, rfl, by rw [hfm]; rfl, h.symm⟩
    · rw [accumulate_statistics_other stats results f h1 h2] at h
      simp only [Option.some.injEq] at h
      exact Or.inl h.symm

theorem entry_isSome_of_accumulate {stats stats2 : AggStats} {results : Metrics}
    {f a : String} (h : accumulate_statistics stats results f a = some stats2)
    (g m : String) (hsome : (entry stats g m).isSome = true) :
    (entry stats2 g m).isSome = true := by
  rcases accumulate_statistics_some_inv h with heq | ⟨fs, k, u, hsf, _, heq⟩
  · rw [heq]; exact hsome
  · rw [heq, entry_fupd stats fs f hsf k u]
    by_cases hc : g = f ∧ m = k
    · rw [if_pos hc]; rfl
    · rw [if_neg hc]; exact hsome

/- Invariant: every requested `(feature, recognized method)` entry is present
in the aggregation dict; established by initialization and preserved by every
successful accumulation step. -/

def Inv (selected aggs : List String) (stats : AggStats) : Prop :=
  ∀ g ∈ selected, ∀ m ∈ aggs, (m = "mean" ∨ m = "std") →
    (entry stats g m).isSome = true

theorem Inv_init (selected aggs : List String) :
    Inv selected aggs (init_aggregation_stats selected aggs) := by
  intro g hg m hm hrec
  rw [entry_init, if_pos ⟨hg, hrec, hm⟩]
  rfl

theorem foldlM_option_pres {β : Type} (P : AggStats → Prop)
    (f : AggStats → β → Option AggStats)
    (hf : ∀ s b s2, f s b = some s2 → P s → P s2) :
    ∀ (l : List β) (s s2 : AggStats), l.foldlM f s = some s2 → P s → P s2 := by
  intro l
  induction l with
  | nil =>
    intro s s2 h hp
    rw [List.foldlM_nil] at h
    cases h
    exact hp
  | cons b rest ih =>
    intro s s2 h hp
    rw [List.foldlM_cons] at h
    cases hfb : f s b with
    | none => rw [hfb] at h; simp at h
    | some s1 =>
      rw [hfb] at h
      simp only [Option.pure_def, Option.bind_eq_bind, Option.some_bind] at h
      exact ih s1 s2 h (hf s b s1 hfb hp)

theorem Inv_accumulate_reply {selected aggs : List String} {results : Metrics}
    {st st2 : AggStats} (h : accumulate_reply selected aggs results st = some st2)
    (hi : Inv selected aggs st) : Inv selected aggs st2 := by
  refine foldlM_option_pres (Inv selected aggs) _ ?_ selected st st2 h hi
  intro s f s2 hstep hinv
  refine foldlM_option_pres (Inv selected aggs) _ ?_ aggs s s2 hstep hinv
  intro s3 a s4 hstep2 hinv2
  intro g hg m hm hrec
  exact entry_isSome_of_accumulate hstep2 g m (hinv2 g hg m hm hrec)

theorem Inv_accumulate_all {selected aggs : List String} {replies : List NodeReply}
    {st st2 : AggStats} (h : accumulate_all selected aggs replies st = some st2)
    (hi : Inv selected aggs st) : Inv selected aggs st2 := by
  refine foldlM_option_pres (Inv selected aggs) _ ?_ replies st st2 h hi
  intro s r s2 hstep hinv
  cases r with
  | none =>
    simp only at hstep
    cases hstep
    exact hinv
  | some m => exact Inv_accumulate_reply hstep hinv

/- The combined effect of accumulating one client reply, per entry: add the
node's column sufficient statistics. -/

/-- The sufficient-statistics contribution of one column to one entry. -/
def colUpd (u : Column) (m : String) (t : Totals) : Totals :=
  if m = "mean" then updMean t (pySum u) (some (u.length : ℚ))
  else updStd t (pySum u) (some (u.length : ℚ)) (pySumSq u)

theorem colUpd_nil (m : String) (t : Totals) : colUpd [] m t = t := by
  by_cases hm : m = "mean" <;>
    simp [colUpd, hm, updMean, updStd, mvAdd_zero_right, pySum, pySumSq, colSq]

theorem colUpd_append (a b : Column) (m : String) (t : Totals) :
    colUpd b m (colUpd a m t) = colUpd (a ++ b) m t := by
  by_cases hm : m = "mean" <;>
    simp [colUpd, hm, updMean, updStd, pySum_append, pySumSq_append,
      List.length_append, mvAdd_assoc, mvAdd_some, Nat.cast_add]

theorem unionCol_nil (g : String) : unionCol [] g = [] := rfl

theorem unionCol_cons (d : Dataset) (ds : List Dataset) (g : String) :
    unionCol (d :: ds) g = getCol d g ++ unionCol ds g := by
  simp [unionCol]

theorem accum_feature_client (d : Dataset) (selected aggs : List String)
    (g : String) (hg : g ∈ selected) :
    ∀ al : List String, al ⊆ aggs → al.Nodup →
      ∀ st : AggStats, Inv selected aggs st →
      ∃ st2,
        al.foldlM
            (fun s a => accumulate_statistics s (clientMetrics d selected aggs) g a) st
          = some st2 ∧
        Inv selected aggs st2 ∧
        ∀ g2 m2, entry st2 g2 m2 =
          if g2 = g ∧ m2 ∈ al ∧ (m2 = "mean" ∨ m2 = "std")
          then (entry st g2 m2).map (colUpd (getCol d g) m2)
          else entry st g2 m2 := by
  intro al
  induction al with
  | nil =>
    intro _ _ st hInv
    refine ⟨st, by rw [List.foldlM_nil]; rfl, hInv, ?_⟩
    intro g2 m2
    simp
  | cons a rest ih =>
    intro hal hnd st hInv
    obtain ⟨hamem, hrsub⟩ := List.cons_subset.mp hal
    obtain ⟨hanotin, hrnd⟩ := List.nodup_cons.mp hnd
    by_cases ha1 : a = "mean"
    · subst ha1
      obtain ⟨t, ht⟩ := Option.isSome_iff_exists.mp (hInv g hg "mean" hamem (Or.inl rfl))
      obtain ⟨hls, hlc⟩ := (lookup_clientMetrics d selected aggs g hg).1 hamem
      obtain ⟨st1, hstep, hchar1⟩ :=
        accumulate_statistics_mean st (clientMetrics d selected aggs) g ht hls hlc
      have hInv1 : Inv selected aggs st1 := by
        intro g2 hg2 m2 hm2 hrec2
        rw [hchar1]
        by_cases hcond : g2 = g ∧ m2 = "mean"
        · rw [if_pos hcond]; rfl
        · rw [if_neg hcond]; exact hInv g2 hg2 m2 hm2 hrec2
      obtain ⟨st2, hfold, hInv2, hchar2⟩ := ih hrsub hrnd st1 hInv1
      refine ⟨st2, ?_, hInv2, ?_⟩
      · rw [List.foldlM_cons, hstep]
        simpa using hfold
      · intro g2 m2
        rw [hchar2 g2 m2, hchar1 g2 m2]
        by_cases hg2 : g2 = g
        · subst hg2
          by_cases hm2 : m2 = "mean"
          · subst hm2
            simp [hanotin, ht, colUpd]
          · simp [hm2]
        · simp [hg2]
    · by_cases ha2 : a = "std"
      · subst ha2
        obtain ⟨t, ht⟩ := Option.isSome_iff_exists.mp (hInv g hg "std" hamem (Or.inr rfl))
        obtain ⟨hls, hlc, hlq⟩ := (lookup_clientMetrics d selected aggs g hg).2 hamem
        obtain ⟨st1, hstep, hchar1⟩ :=
          accumulate_statistics_std st (clientMetrics d selected aggs) g ht hls hlc hlq
        have hInv1 : Inv selected aggs st1 := by
          intro g2 hg2 m2 hm2 hrec2
          rw [hchar1]
          by_cases hcond : g2 = g ∧ m2 = "std"
          · rw [if_pos hcond]; rfl
          · rw [if_neg hcond]; exact hInv g2 hg2 m2 hm2 hrec2
        obtain ⟨st2, hfold, hInv2, hchar2⟩ := ih hrsub hrnd st1 hInv1
        refine ⟨st2, ?_, hInv2, ?_⟩
        · rw [List.foldlM_cons, hstep]
          simpa using hfold
        · intro g2 m2
          rw [hchar2 g2 m2, hchar1 g2 m2]
          by_cases hg2 : g2 = g
          · subst hg2
            by_cases hm2 : m2 = "std"
            · subst hm2
              simp [hanotin, ht, colUpd]
            · simp [hm2]
          · simp [hg2]
      · obtain ⟨st2, hfold, hInv2, hchar2⟩ := ih hrsub hrnd st hInv
        refine ⟨st2, ?_, hInv2, ?_⟩
        · rw [List.foldlM_cons,
            accumulate_statistics_other st (clientMetrics d selected aggs) g ha1 ha2]
          simpa using hfold
        · intro g2 m2
          rw [hchar2 g2 m2]
          by_cases hma : m2 = a
          · subst hma
            simp [ha1, ha2]
          · simp [hma]

theorem accum_reply_client (d : Dataset) (selected aggs : List String)
    (hnda : aggs.Nodup) :
    ∀ sl : List String, sl ⊆ selected → sl.Nodup →
      ∀ st : AggStats, Inv selected aggs st →
      ∃ st2,
        sl.foldlM
            (fun s f => aggs.foldlM
              (fun s2 a => accumulate_statistics s2 (clientMetrics d selected aggs) f a) s)
            st = some st2 ∧
        Inv selected aggs st2 ∧
        ∀ g2 m2, entry st2 g2 m2 =
          if g2 ∈ sl ∧ m2 ∈ aggs ∧ (m2 = "mean" ∨ m2 = "std")
          then (entry st g2 m2).map (colUpd (getCol d g2) m2)
          else entry st g2 m2 := by
  intro sl
  induction sl with
  | nil =>
    intro _ _ st hInv
    refine ⟨st, by rw [List.foldlM_nil]; rfl, hInv, ?_⟩
    intro g2 m2
    simp
  | cons f rest ih =>
    intro hsl hnd st hInv
    obtain ⟨hfmem, hrsub⟩ := List.cons_subset.mp hsl
    obtain ⟨hfnotin, hrnd⟩ := List.nodup_cons.mp hnd
    obtain ⟨st1, hstep, hInv1, hchar1⟩ :=
      accum_feature_client d selected aggs f hfmem aggs (List.Subset.refl aggs) hnda st hInv
    obtain ⟨st2, hfold, hInv2, hchar2⟩ := ih hrsub hrnd st1 hInv1
    refine ⟨st2, ?_, hInv2, ?_⟩
    · rw [List.foldlM_cons, hstep]
      simpa using hfold
    · intro g2 m2
      rw [hchar2 g2 m2, hchar1 g2 m2]
      by_cases hg2f : g2 = f
      · subst hg2f
        simp [hfnotin]
      · by_cases hg2r : g2 ∈ rest
        · simp [hg2f, hg2r]
        · simp [hg2f, hg2r]

theorem accumulate_reply_client (d : Dataset) (selected aggs : List String)
    (hnds : selected.Nodup) (hnda : aggs.Nodup) (st : AggStats)
    (hInv : Inv selected aggs st) :
    ∃ st2,
      accumulate_reply selected aggs (clientMetrics d selected aggs) st = some st2 ∧
      Inv selected aggs st2 ∧
      ∀ g m, entry st2 g m =
        if g ∈ selected ∧ m ∈ aggs ∧ (m = "mean" ∨ m = "std")
        then (entry st g m).map (colUpd (getCol d g) m)
        else entry st g m :=
  accum_reply_client d selected aggs hnda selected (List.Subset.refl selected) hnds st hInv

theorem accumulate_all_client (selected aggs : List String)
    (hnds : selected.Nodup) (hnda : aggs.Nodup) :
    ∀ (ds : List Dataset) (st : AggStats), Inv selected aggs st →
    ∃ st2,
      accumulate_all selected aggs
          (ds.map fun d => some (clientMetrics d selected aggs)) st = some st2 ∧
      Inv selected aggs st2 ∧
      ∀ g m, entry st2 g m =
        if g ∈ selected ∧ m ∈ aggs ∧ (m = "mean" ∨ m = "std")
        then (entry st g m).map (colUpd (unionCol ds g) m)
        else entry st g m := by
  intro ds
  induction ds with
  | nil =>
    intro st hInv
    refine ⟨st, by rw [accumulate_all, List.map_nil, List.foldlM_nil]; rfl, hInv, ?_⟩
    intro g m
    by_cases hc : g ∈ selected ∧ m ∈ aggs ∧ (m = "mean" ∨ m = "std")
    · rw [if_pos hc]
      cases entry st g m <;> simp [unionCol_nil, colUpd_nil]
    · rw [if_neg hc]
  | cons d ds ih =>
    intro st hInv
    obtain ⟨st1, hstep, hInv1, hchar1⟩ :=
      accumulate_reply_client d selected aggs hnds hnda st hInv
    obtain ⟨st2, hfold, hInv2, hchar2⟩ := ih st1 hInv1
    refine ⟨st2, ?_, hInv2, ?_⟩
    · rw [accumulate_all, List.map_cons, List.foldlM_cons]
      simp only []
      rw [hstep]
      simpa [accumulate_all] using hfold
    · intro g m
      rw [hchar2 g m, hchar1 g m]
      by_cases hc : g ∈ selected ∧ m ∈ aggs ∧ (m = "mean" ∨ m = "std")
      · simp only [if_pos hc]
        cases entry st g m with
        | none => simp
        | some t => simp [colUpd_append, unionCol_cons]
      · simp only [if_neg hc]

/- Success of accumulation for any well-formed reply (no duplicate-freeness
needed, no value tracking). -/

theorem accumulate_statistics_succeeds {selected aggs : List String}
    {results : Metrics} (hwf : WellFormed selected aggs results)
    {st : AggStats} (hInv : Inv selected aggs st) {g : String} (hg : g ∈ selected)
    {a : String} (ha : a ∈ aggs) :
    ∃ st2, accumulate_statistics st results g a = some st2 := by
  by_cases h1 : a = "mean"
  · subst h1
    obtain ⟨t, ht⟩ := Option.isSome_iff_exists.mp (hInv g hg "mean" ha (Or.inl rfl))
    obtain ⟨hs1, hs2⟩ := (hwf g hg).1 ha
    obtain ⟨s, hs⟩ := Option.isSome_iff_exists.mp hs1
    obtain ⟨c, hc⟩ := Option.isSome_iff_exists.mp hs2
    obtain ⟨st2, hst2, _⟩ := accumulate_statistics_mean st results g ht hs hc
    exact ⟨st2, hst2⟩
  · by_cases h2 : a = "std"
    · subst h2
      obtain ⟨t, ht⟩ := Option.isSome_iff_exists.mp (hInv g hg "std" ha (Or.inr rfl))
      obtain ⟨hs1, hs2, hs3⟩ := (hwf g hg).2 ha
      obtain ⟨s, hs⟩ := Option.isSome_iff_exists.mp hs1
      obtain ⟨c, hc⟩ := Option.isSome_iff_exists.mp hs2
      obtain ⟨q, hq⟩ := Option.isSome_iff_exists.mp hs3
      obtain ⟨st2, hst2, _⟩ := accumulate_statistics_std st results g ht hs hc hq
      exact ⟨st2, hst2⟩
    · exact ⟨st, accumulate_statistics_other st results g h1 h2⟩

theorem foldlM_option_total {β : Type} (P : AggStats → Prop)
    (f : AggStats → β → Option AggStats) :
    ∀ l : List β,
      (∀ b ∈ l, ∀ s, P s → ∃ s2, f s b = some s2) →
      (∀ s b s2, f s b = some s2 → P s → P s2) →
      ∀ s, P s → ∃ s2, l.foldlM f s = some s2 ∧ P s2 := by
  intro l
  induction l with
  | nil =>
    intro _ _ s hp
    exact ⟨s, by rw [List.foldlM_nil]; rfl, hp⟩
  | cons b rest ih =>
    intro htot hpres s hp
    obtain ⟨s1, hs1⟩ := htot b (List.mem_cons_self b rest) s hp
    have hp1 : P s1 := hpres s b s1 hs1 hp
    obtain ⟨s2, hs2, hp2⟩ :=
      ih (fun b2 hb2 => htot b2 (List.mem_cons_of_mem b hb2)) hpres s1 hp1
    refine ⟨s2, ?_, hp2⟩
    rw [List.foldlM_cons, hs1]
    simpa using hs2

theorem accumulate_reply_wf {selected aggs : List String} {results : Metrics}
    (hwf : WellFormed selected aggs results) (st : AggStats)
    (hInv : Inv selected aggs st) :
    ∃ st2, accumulate_reply selected aggs results st = some st2 ∧
      Inv selected aggs st2 := by
  refine foldlM_option_total (Inv selected aggs) _ selected ?_ ?_ st hInv
  · intro g hg s hp
    obtain ⟨s2, h2, _⟩ := foldlM_option_total (Inv selected aggs)
      (fun st2 agg => accumulate_statistics st2 results g agg) aggs
      (fun a ha s3 hp3 => accumulate_statistics_succeeds hwf hp3 hg ha)
      (fun s3 a s4 hstep hinv3 g2 hg2 m2 hm2 hrec2 =>
        entry_isSome_of_accumulate hstep g2 m2 (hinv3 g2 hg2 m2 hm2 hrec2))
      s hp
    exact ⟨s2, h2⟩
  · intro s g s2 hstep hinv
    refine foldlM_option_pres (Inv selected aggs) _ ?_ aggs s s2 hstep hinv
    intro s3 a s4 hstep2 hinv3
    intro g2 hg2 m2 hm2 hrec2
    exact entry_isSome_of_accumulate hstep2 g2 m2 (hinv3 g2 hg2 m2 hm2 hrec2)

theorem accumulate_all_wf {selected aggs : List String} :
    ∀ replies : List NodeReply,
      (∀ mm, some mm ∈ replies → WellFormed selected aggs mm) →
      ∀ st : AggStats, Inv selected aggs st →
      ∃ st2, accumulate_all selected aggs replies st = some st2 ∧
        Inv selected aggs st2 := by
  intro replies
  induction replies with
  | nil =>
    intro _ st hInv
    exact ⟨st, by rw [accumulate_all, List.foldlM_nil]; rfl, hInv⟩
  | cons r rest ih =>
    intro hwf st hInv
    cases r with
    | none =>
      obtain ⟨st2, hfold, hInv2⟩ :=
        ih (fun mm hmm => hwf mm (List.mem_cons_of_mem none hmm)) st hInv
      refine ⟨st2, ?_, hInv2⟩
      rw [accumulate_all, List.foldlM_cons]
      simpa [accumulate_all] using hfold
    | some m =>
      obtain ⟨st1, hstep, hInv1⟩ :=
        accumulate_reply_wf (hwf m (List.mem_cons_self (some m) rest)) st hInv
      obtain ⟨st2, hfold, hInv2⟩ :=
        ih (fun mm hmm => hwf mm (List.mem_cons_of_mem (some m) hmm)) st1 hInv1
      refine ⟨st2, ?_, hInv2⟩
      rw [accumulate_all, List.foldlM_cons]
      simp only []
      rw [hstep]
      simpa [accumulate_all] using hfold

theorem accumulate_all_skip_errors (selected aggs : List String) :
    ∀ (replies : List NodeReply) (st : AggStats),
      accumulate_all selected aggs replies st =
        accumulate_all selected aggs (replies.filter fun r => r.isSome) st := by
  intro replies
  induction replies with
  | nil => intro st; rfl
  | cons r rest ih =>
    intro st
    cases r with
    | none =>
      rw [accumulate_all, List.foldlM_cons]
      simp only [List.filter_cons, Option.isSome_none]
      simpa [accumulate_all] using ih st
    | some m =>
      rw [accumulate_all, List.foldlM_cons]
      simp only [List.filter_cons, Option.isSome_some, if_pos]
      rw [accumulate_all, List.foldlM_cons]
      simp only []
      cases hstep : accumulate_reply selected aggs m st with
      | none => simp
      | some st1 =>
        simpa [accumulate_all] using ih st1

theorem valid_count_eq_zero_iff (replies : List NodeReply) :
    valid_count replies = 0 ↔ ∀ r ∈ replies, r = none := by
  rw [valid_count, List.length_eq_zero, List.filter_eq_nil_iff]
  constructor
  · intro h r hr
    have := h r hr
    simpa using this
  · intro h r hr
    simp [h r hr]

/- Characterization of `_compute_final_statistics` given the entry totals. -/

theorem compute_final_mean_eq (stats : AggStats) (f : String) {t : Totals}
    (ht : entry stats f "mean" = some t) :
    compute_final_statistics stats f "mean" =
      if t.count = some 0 then
        some (.err ("No data available for feature " ++ f ++ " mean calculation"))
      else some (.value (mvDivVal t.sum t.count)) := by
  rw [compute_final_statistics, if_pos rfl, ht]

theorem compute_final_std_eq (stats : AggStats) (f : String) {t : Totals}
    (ht : entry stats f "std" = some t) :
    compute_final_statistics stats f "std" =
      match t.count with
      | some c =>
        if c ≤ 1 then
          some (.err ("Insufficient data for feature " ++ f ++
            " std calculation (need > 1 samples)"))
        else
          match t.sum, t.sum_sqd with
          | some s, some q =>
            some (.value (.sqrt
              (let m := s / c
               let v := (q - c * m ^ 2) / (c - 1)
               if v < 0 then 0 else v)))
          | _, _ => some (.value .nan)
      | none => some (.value .nan) := by
  rw [compute_final_statistics, if_neg (by decide), if_pos rfl, ht]

theorem compute_final_other_eq (stats : AggStats) (f : String) {m : String}
    (h1 : m ≠ "mean") (h2 : m ≠ "std") :
    compute_final_statistics stats f m =
      some (.err ("Unsupported aggregation method: " ++ m)) := by
  rw [compute_final_statistics, if_neg h1, if_neg h2]

theorem compute_final_some {selected aggs : List String} {stats : AggStats}
    (hInv : Inv selected aggs stats) {g m : String} (hg : g ∈ selected)
    (hm : m ∈ aggs) : ∃ e, compute_final_statistics stats g m = some e := by
  by_cases h1 : m = "mean"
  · subst h1
    obtain ⟨t, ht⟩ := Option.isSome_iff_exists.mp (hInv g hg "mean" hm (Or.inl rfl))
    rw [compute_final_mean_eq stats g ht]
    by_cases hc : t.count = some 0
    · rw [if_pos hc]; exact ⟨_, rfl⟩
    · rw [if_neg hc]; exact ⟨_, rfl⟩
  · by_cases h2 : m = "std"
    · subst h2
      obtain ⟨t, ht⟩ := Option.isSome_iff_exists.mp (hInv g hg "std" hm (Or.inr rfl))
      rw [compute_final_std_eq stats g ht]
      cases hcnt : t.count with
      | none => exact ⟨_, rfl⟩
      | some c =>
        by_cases hc1 : c ≤ 1
        · refine ⟨.err ("Insufficient data for feature " ++ g ++
            " std calculation (need > 1 samples)"), ?_⟩
          simp only []
          rw [if_pos hc1]
        · cases hsum : t.sum with
          | none =>
            refine ⟨.value .nan, ?_⟩
            simp only []
            rw [if_neg hc1]
          | some s =>
            cases hsqd : t.sum_sqd with
            | none =>
              refine ⟨.value .nan, ?_⟩
              simp only []
              rw [if_neg hc1]
            | some q =>
              refine ⟨.value (.sqrt
                (let m := s / c
                 let v := (q - c * m ^ 2) / (c - 1)
                 if v < 0 then 0 else v)), ?_⟩
              simp only []
              rw [if_neg hc1]
    · exact ⟨_, compute_final_other_eq stats g h1 h2⟩

theorem finalize_feature (stats : AggStats) (selected aggs : List String)
    (hInv : Inv selected aggs stats) (f : String) (hf : f ∈ selected) :
    ∀ al : List String, al ⊆ aggs →
    ∀ acc : FinalMap × List String,
    ∃ res,
      al.foldlM
        (fun acc2 agg =>
          match compute_final_statistics stats f agg with
          | none => none
          | some (.value v) => some (setEntry acc2.1 f agg (some v), acc2.2)
          | some (.err msg) =>
              some (setEntry acc2.1 f agg none, acc2.2 ++ ["Warning: " ++ msg]))
        acc = some res ∧
      (∀ g m, res.1 g m =
        if g = f ∧ m ∈ al
        then (compute_final_statistics stats f m).map toFinal
        else acc.1 g m) ∧
      (∀ w ∈ acc.2, w ∈ res.2) ∧
      (∀ m ∈ al, ∀ msg, compute_final_statistics stats f m = some (.err msg) →
        ("Warning: " ++ msg) ∈ res.2) := by
  intro al
  induction al with
  | nil =>
    intro _ acc
    refine ⟨acc, by rw [List.foldlM_nil]; rfl, ?_, fun w hw => hw, ?_⟩
    · intro g m; simp
    · intro m hm; cases hm
  | cons a rest ih =>
    intro hal acc
    obtain ⟨hamem, hrsub⟩ := List.cons_subset.mp hal
    obtain ⟨e, he⟩ := compute_final_some hInv hf hamem
    cases e with
    | value v =>
      obtain ⟨res, hfold, hchar, hwp, hwn⟩ :=
        ih hrsub (setEntry acc.1 f a (some v), acc.2)
      refine ⟨res, ?_, ?_, hwp, ?_⟩
      · rw [List.foldlM_cons, he]
        simpa using hfold
      · intro g m
        rw [hchar g m]
        by_cases hgf : g = f
        · subst hgf
          by_cases hma : m = a
          · subst hma
            by_cases hmr : m ∈ rest
            · simp [hmr]
            · simp [hmr, setEntry, he, toFinal]
          · by_cases hmr : m ∈ rest
            · simp [hmr]
            · simp [hmr, hma, setEntry]
        · simp [hgf, setEntry]
      · intro m hm msg hmsg
        rcases List.mem_cons.mp hm with hma | hmr
        · subst hma
          rw [he] at hmsg
          cases hmsg
        · exact hwn m hmr msg hmsg
    | err msg0 =>
      obtain ⟨res, hfold, hchar, hwp, hwn⟩ :=
        ih hrsub (setEntry acc.1 f a none, acc.2 ++ ["Warning: " ++ msg0])
      refine ⟨res, ?_, ?_, ?_, ?_⟩
      · rw [List.foldlM_cons, he]
        simpa using hfold
      · intro g m
        rw [hchar g m]
        by_cases hgf : g = f
        · subst hgf
          by_cases hma : m = a
          · subst hma
            by_cases hmr : m ∈ rest
            · simp [hmr]
            · simp [hmr, setEntry, he, toFinal]
          · by_cases hmr : m ∈ rest
            · simp [hmr]
            · simp [hmr, hma, setEntry]
        · simp [hgf, setEntry]
      · intro w hw
        exact hwp w (List.mem_append_left _ hw)
      · intro m hm msg hmsg
        rcases List.mem_cons.mp hm with hma | hmr
        · subst hma
          rw [he] at hmsg
          have : msg0 = msg := by
            cases hmsg
            rfl
          subst this
          exact hwp _ (List.mem_append_right _ (List.mem_singleton.mpr rfl))
        · exact hwn m hmr msg hmsg

theorem finalize_char (stats : AggStats) (selected aggs : List String)
    (hInv : Inv selected aggs stats) :
    ∀ sl : List String, sl ⊆ selected →
    ∀ acc : FinalMap × List String,
    ∃ res,
      sl.foldlM
        (fun acc f =>
          aggs.foldlM
            (fun acc2 agg =>
              match compute_final_statistics stats f agg with
              | none => none
              | some (.value v) => some (setEntry acc2.1 f agg (some v), acc2.2)
              | some (.err msg) =>
                  some (setEntry acc2.1 f agg none, acc2.2 ++ ["Warning: " ++ msg]))
            (clearFeature acc.1 f, acc.2))
        acc = some res ∧
      (∀ g m, res.1 g m =
        if g ∈ sl
        then (if m ∈ aggs then (compute_final_statistics stats g m).map toFinal else none)
        else acc.1 g m) ∧
      (∀ w ∈ acc.2, w ∈ res.2) ∧
      (∀ g ∈ sl, ∀ m ∈ aggs, ∀ msg,
        compute_final_statistics stats g m = some (.err msg) →
        ("Warning: " ++ msg) ∈ res.2) := by
  intro sl
  induction sl with
  | nil =>
    intro _ acc
    refine ⟨acc, by rw [List.foldlM_nil]; rfl, ?_, fun w hw => hw, ?_⟩
    · intro g m; simp
    · intro g hg; cases hg
  | cons f rest ih =>
    intro hsl acc
    obtain ⟨hfmem, hrsub⟩ := List.cons_subset.mp hsl
    obtain ⟨res1, hfold1, hchar1, hwp1, hwn1⟩ :=
      finalize_feature stats selected aggs hInv f hfmem aggs (List.Subset.refl aggs)
        (clearFeature acc.1 f, acc.2)
    obtain ⟨res, hfold, hchar, hwp, hwn⟩ := ih hrsub res1
    refine ⟨res, ?_, ?_, ?_, ?_⟩
    · rw [List.foldlM_cons, hfold1]
      simpa using hfold
    · intro g m
      rw [hchar g m]
      by_cases hgr : g ∈ rest
      · simp [hgr]
      · rw [if_neg hgr, hchar1 g m]
        by_cases hgf : g = f
        · subst hgf
          by_cases hma : m ∈ aggs
          · simp [hma]
          · simp [hma, clearFeature]
        · simp [hgf, hgr, clearFeature]
    · intro w hw
      exact hwp w (hwp1 w hw)
    · intro g hg m hm msg hmsg
      rcases List.mem_cons.mp hg with hgf | hgr
      · subst hgf
        exact hwp _ (hwn1 m hm msg hmsg)
      · exact hwn g hgr m hm msg hmsg

theorem finalize_ok (stats : AggStats) (selected aggs : List String)
    (hInv : Inv selected aggs stats) :
    ∃ fm ws, finalize stats selected aggs = some (fm, ws) ∧
      (∀ g m, fm g m =
        if g ∈ selected
        then (if m ∈ aggs then (compute_final_statistics stats g m).map toFinal else none)
        else none) ∧
      (∀ g ∈ selected, ∀ m ∈ aggs, ∀ msg,
        compute_final_statistics stats g m = some (.err msg) →
        ("Warning: " ++ msg) ∈ ws) := by
  obtain ⟨res, hfold, hchar, _, hwn⟩ :=
    finalize_char stats selected aggs hInv selected (List.Subset.refl selected)
      ((fun _ _ => none), ([] : List String))
  exact ⟨res.1, res.2, hfold, hchar, hwn⟩

theorem aggregate_features_ok {replies : List NodeReply} {selected aggs : List String}
    {stats : AggStats}
    (hacc : accumulate_all selected aggs replies (init_aggregation_stats selected aggs)
      = some stats)
    (hval : valid_count replies ≠ 0) :
    ∃ out, aggregate_features replies selected aggs = .ok out ∧
      (∀ g m, out.stats g m =
        if g ∈ selected
        then (if m ∈ aggs then (compute_final_statistics stats g m).map toFinal else none)
        else none) ∧
      (∀ g ∈ selected, ∀ m ∈ aggs, ∀ msg,
        compute_final_statistics stats g m = some (.err msg) →
        ("Warning: " ++ msg) ∈ out.warnings) := by
  have hInv := Inv_accumulate_all hacc (Inv_init selected aggs)
  obtain ⟨fm, ws, hfin, hchar, hwn⟩ := finalize_ok stats selected aggs hInv
  refine ⟨⟨fm, ws⟩, ?_, hchar, hwn⟩
  rw [aggregate_features, hacc]
  simp only []
  rw [if_neg hval, hfin]

theorem aggregate_features_ok_inv {replies : List NodeReply}
    {selected aggs : List String} {stats : AggStats} {out : RoundResult}
    (hacc : accumulate_all selected aggs replies (init_aggregation_stats selected aggs)
      = some stats)
    (hagg : aggregate_features replies selected aggs = .ok out) :
    (∀ g m, out.stats g m =
      if g ∈ selected
      then (if m ∈ aggs then (compute_final_statistics stats g m).map toFinal else none)
      else none) ∧
    (∀ g ∈ selected, ∀ m ∈ aggs, ∀ msg,
      compute_final_statistics stats g m = some (.err msg) →
      ("Warning: " ++ msg) ∈ out.warnings) := by
  have hval : valid_count replies ≠ 0 := by
    intro h0
    rw [aggregate_features, hacc] at hagg
    simp only [] at hagg
    rw [if_pos h0] at hagg
    cases hagg
  obtain ⟨out2, hagg2, hchar, hwn⟩ := aggregate_features_ok hacc hval
  rw [hagg] at hagg2
  cases hagg2
  exact ⟨hchar, hwn⟩

/- Remaining helpers for the claim theorems. -/

theorem replies_of_datasets (ds : List Dataset) (selected aggs : List String)
    (hcols : ∀ d ∈ ds, ∀ g ∈ selected, g ∈ columnsOf d) :
    ds.map (fun d => (query d selected aggs).toOption) =
      ds.map (fun d => some (clientMetrics d selected aggs)) := by
  apply List.map_congr_left
  intro d hd
  rw [query_eq_clientMetrics d selected aggs (hcols d hd)]
  rfl

theorem valid_count_map_some {α : Type} (f : α → Metrics) :
    ∀ l : List α, valid_count (l.map fun x => some (f x)) = l.length := by
  intro l
  induction l with
  | nil => rfl
  | cons a rest ih =>
    simp only [List.map_cons, valid_count, List.filter_cons, Option.isSome_some,
      List.length_cons]
    simp only [valid_count] at ih
    simp [ih]

theorem flatten_map_some (parts : List (List ℚ)) :
    (parts.map fun vs => vs.map some).flatten = parts.flatten.map some := by
  induction parts with
  | nil => rfl
  | cons vs rest ih =>
    rw [List.map_cons, List.flatten_cons, ih, List.flatten_cons, List.map_append]

theorem query_error_iff (d : Dataset) (aggs : List String) :
    ∀ selected : List String,
      (∃ e, query d selected aggs = .error e) ↔ ∃ f ∈ selected, f ∉ columnsOf d := by
  intro selected
  induction selected with
  | nil =>
    constructor
    · intro ⟨e, he⟩
      simp only [query] at he
      cases he
    · intro ⟨f, hf, _⟩
      cases hf
  | cons g fs ih =>
    by_cases hg : g ∈ columnsOf d
    · constructor
      · intro ⟨e, he⟩
        simp only [query, if_pos hg] at he
        cases hq : query d fs aggs with
        | ok m2 => rw [hq] at he; cases he
        | error e2 =>
          obtain ⟨f, hf, hfc⟩ := ih.mp ⟨e2, hq⟩
          exact ⟨f, List.mem_cons_of_mem g hf, hfc⟩
      · intro ⟨f, hf, hfc⟩
        have hffs : f ∈ fs := by
          rcases List.mem_cons.mp hf with h | h
          · subst h; exact absurd hg hfc
          · exact h
        obtain ⟨e, he⟩ := ih.mpr ⟨f, hffs, hfc⟩
        refine ⟨e, ?_⟩
        simp only [query, if_pos hg, he]
    · constructor
      · intro _
        exact ⟨g, List.mem_cons_self g fs, hg⟩
      · intro _
        refine ⟨"Feature " ++ g ++ " not found in dataset columns.", ?_⟩
        simp only [query, if_neg hg]

theorem query_cols_of_ok {d : Dataset} {selected aggs : List String} {m : Metrics}
    (hq : query d selected aggs = .ok m) : ∀ g ∈ selected, g ∈ columnsOf d := by
  intro g hg
  by_contra hgc
  obtain ⟨e, he⟩ := (query_error_iff d aggs selected).mpr ⟨g, hg, hgc⟩
  rw [hq] at he
  cases he

theorem query_ok_payload {d : Dataset} {selected aggs : List String} {m : Metrics}
    (hq : query d selected aggs = .ok m) : m = clientMetrics d selected aggs := by
  have h2 := query_eq_clientMetrics d selected aggs (query_cols_of_ok hq)
  rw [hq] at h2
  exact Except.ok.inj h2

theorem flatMap_filter {α β : Type} (p : α → Bool) (fn : α → List β)
    (h : ∀ a, p a = false → fn a = []) :
    ∀ l : List α, l.flatMap fn = (l.filter p).flatMap fn := by
  intro l
  induction l with
  | nil => rfl
  | cons a rest ih =>
    cases hp : p a with
    | false => simp [List.flatMap_cons, List.filter_cons, hp, h a hp, ih]
    | true => simp [List.flatMap_cons, List.filter_cons, hp, ih]

theorem featureMetrics_filter (d : Dataset) (g : String) (aggs : List String) :
    featureMetrics d g aggs =
      featureMetrics d g (aggs.filter fun a => a == "mean" || a == "std") := by
  apply flatMap_filter
  intro a ha
  simp only [Bool.or_eq_false_iff, beq_eq_false_iff_ne, ne_eq] at ha
  rw [if_neg ha.1, if_neg ha.2]

theorem query_skips_unknown_methods (d : Dataset) (selected aggs : List String) :
    query d selected aggs =
      query d selected (aggs.filter fun a => a == "mean" || a == "std") := by
  induction selected with
  | nil => rfl
  | cons f fs ih =>
    simp only [query]
    rw [ih, featureMetrics_filter d f aggs]

/- Claim theorems. -/

/-- C1: additivity of the reduction. For every list of node datasets (each
containing every requested feature, i.e. a partition of a combined dataset)
and every requested feature, with the requested feature and method lists free
of duplicates, the globally reduced sufficient statistics — each node computing
its local partial statistics via `query` and the aggregator summing them
component-wise over all (valid) replies — equal the sufficient statistics
(sum, count, sum of squares) computed directly on the concatenation of all
nodes' rows, regardless of how the rows are partitioned. -/
theorem claim_C1 (ds : List Dataset) (selected aggs : List String) (f : String)
    (hnds : selected.Nodup) (hnda : aggs.Nodup) (hf : f ∈ selected)
    (hcols : ∀ d ∈ ds, ∀ g ∈ selected, g ∈ columnsOf d) :
    ∃ stats,
      accumulate_all selected aggs
        (ds.map fun d => (query d selected aggs).toOption)
        (init_aggregation_stats selected aggs) = some stats ∧
      ("mean" ∈ aggs → ∃ t, entry stats f "mean" = some t ∧
        t.sum = pySum (unionCol ds f) ∧
        t.count = some ((unionCol ds f).length : ℚ)) ∧
      ("std" ∈ aggs → ∃ t, entry stats f "std" = some t ∧
        t.sum = pySum (unionCol ds f) ∧
        t.count = some ((unionCol ds f).length : ℚ) ∧
        t.sum_sqd = pySumSq (unionCol ds f)) := by
  rw [replies_of_datasets ds selected aggs hcols]
  obtain ⟨stats, hacc, _, hchar⟩ :=
    accumulate_all_client selected aggs hnds hnda ds
      (init_aggregation_stats selected aggs) (Inv_init selected aggs)
  refine ⟨stats, hacc, ?_, ?_⟩
  · intro hmean
    refine ⟨colUpd (unionCol ds f) "mean" zeroTotals, ?_, ?_, ?_⟩
    · rw [hchar f "mean", if_pos ⟨hf, hmean, Or.inl rfl⟩, entry_init,
        if_pos ⟨hf, Or.inl rfl, hmean⟩]
      rfl
    · simp [colUpd, updMean, zeroTotals, mvAdd_zero_left]
    · simp [colUpd, updMean, zeroTotals, mvAdd_zero_left]
  · intro hstd
    refine ⟨colUpd (unionCol ds f) "std" zeroTotals, ?_, ?_, ?_, ?_⟩
    · rw [hchar f "std", if_pos ⟨hf, hstd, Or.inr rfl⟩, entry_init,
        if_pos ⟨hf, Or.inr rfl, hstd⟩]
      rfl
    · simp [colUpd, updStd, zeroTotals, mvAdd_zero_left]
    · simp [colUpd, updStd, zeroTotals, mvAdd_zero_left]
    · simp [colUpd, updStd, zeroTotals, mvAdd_zero_left]

/-- Witness for C1: the dataset `[2,4,4,4,5,5,7,9]` for feature x split over
two nodes. -/
theorem claim_C1_witness :
    ∃ stats,
      accumulate_all ["x"] ["mean", "std"]
        (([[("x", [some 2, some 4, some 4, some 4])],
           [("x", [some 5, some 5, some 7, some 9])]] : List Dataset).map
          fun d => (query d ["x"] ["mean", "std"]).toOption)
        (init_aggregation_stats ["x"] ["mean", "std"]) = some stats ∧
      ("mean" ∈ (["mean", "std"] : List String) → ∃ t,
        entry stats "x" "mean" = some t ∧
        t.sum = pySum (unionCol [[("x", [some 2, some 4, some 4, some 4])],
          [("x", [some 5, some 5, some 7, some 9])]] "x") ∧
        t.count = some ((unionCol [[("x", [some 2, some 4, some 4, some 4])],
          [("x", [some 5, some 5, some 7, some 9])]] "x").length : ℚ)) ∧
      ("std" ∈ (["mean", "std"] : List String) → ∃ t,
        entry stats "x" "std" = some t ∧
        t.sum = pySum (unionCol [[("x", [some 2, some 4, some 4, some 4])],
          [("x", [some 5, some 5, some 7, some 9])]] "x") ∧
        t.count = some ((unionCol [[("x", [some 2, some 4, some 4, some 4])],
          [("x", [some 5, some 5, some 7, some 9])]] "x").length : ℚ) ∧
        t.sum_sqd = pySumSq (unionCol [[("x", [some 2, some 4, some 4, some 4])],
          [("x", [some 5, some 5, some 7, some 9])]] "x")) :=
  claim_C1 _ _ _ "x" (by decide) (by decide) (by decide) (by decide)

/-- C4: variance floor. For every reduced std entry with count greater than 1
whose computed variance `(Q − C·(S/C)²)/(C−1)` is negative, the final std
computation clamps the variance to 0 before the square root and returns the
float `sqrt 0 = 0.0` — a value, never a raised error and never NaN. -/
theorem claim_C4 (stats : AggStats) (f : String) (S C Q : ℚ)
    (he : entry stats f "std" = some ⟨some S, some C, some Q⟩) (hC : 1 < C)
    (hneg : (Q - C * (S / C) ^ 2) / (C - 1) < 0) :
    compute_final_statistics stats f "std" = some (.value (.sqrt 0)) ∧
    Real.sqrt 0 = 0 := by
  constructor
  · rw [compute_final_std_eq stats f he]
    simp only []
    rw [if_neg (not_le.mpr hC)]
    simp [hneg]
  · exact Real.sqrt_zero

/-- Witness for C4: totals `(S, C, Q) = (4, 2, 7)` give variance −1 < 0. -/
theorem claim_C4_witness :
    compute_final_statistics
      (fun g => if g = "x" then
        some (fun m => if m = "std" then some ⟨some 4, some 2, some 7⟩ else none)
        else none) "x" "std" = some (.value (.sqrt 0)) ∧
    Real.sqrt 0 = 0 :=
  claim_C4 _ "x" 4 2 7 (by decide) (by norm_num) (by norm_num)

/-- C8: FeatureNotFound atomicity. A node's `query` returns an error reply iff
some requested feature is absent from its local dataset; the error reply
carries no per-feature statistics at all (its payload is only an error
message), and when every requested feature exists the reply never fails. -/
theorem claim_C8 (d : Dataset) (selected aggs : List String) :
    ((∃ f ∈ selected, f ∉ columnsOf d) ↔ ∃ e, query d selected aggs = .error e) ∧
    (∀ m, query d selected aggs = .ok m → ∀ f ∈ selected, f ∈ columnsOf d) := by
  constructor
  · exact (query_error_iff d aggs selected).symm
  · intro m hm
    exact query_cols_of_ok hm

/-- Witness for C8: requesting the absent feature z errors, requesting only x
yields every requested feature present. -/
theorem claim_C8_witness :
    (∃ e, query [("x", [some 1])] ["x", "z"] ["mean"] = .error e) ∧
    (∀ m, query [("x", [some 1])] ["x"] ["mean"] = .ok m →
      ∀ f ∈ (["x"] : List String), f ∈ columnsOf [("x", [some 1])]) := by
  constructor
  · exact (claim_C8 [("x", [some 1])] ["x", "z"] ["mean"]).1.mp
      ⟨"z", by decide, by decide⟩
  · exact (claim_C8 [("x", [some 1])] ["x"] ["mean"]).2

/-- C9 as stated is false on the code: with a missing cell in the column, the
emitted count is the total number of rows (`len(df[feature])`), not the number
of non-missing rows. Concretely, for the single-node dataset with column x =
`[1, NaN]`, `query` emits `x_mean_count = 2` while only 1 row is non-missing. -/
theorem claim_C9_counterexample :
    ∃ m, query [("x", [some 1, none])] ["x"] ["mean"] = .ok m ∧
      lookupMetric m ("x" ++ "_mean_count") = some (some 2) ∧
      nonMissingCount (getCol [("x", [some (1 : ℚ), none])] "x") = 1 ∧
      lookupMetric m ("x" ++ "_mean_count") ≠
        some (some ((nonMissingCount (getCol [("x", [some (1 : ℚ), none])] "x") : ℚ))) := by
  refine ⟨_, rfl, ?_, ?_, ?_⟩ <;> decide

/-- C9 (amended): for every successfully computed per-feature partial
statistic, whenever the emitted sum of squares is an actual number (not NaN),
it is nonnegative; and the emitted count equals the total number of rows of
the feature's column on that node — rows with a missing value included. -/
theorem claim_C9_amended (d : Dataset) (selected aggs : List String)
    (m : Metrics) (f : String) (hq : query d selected aggs = .ok m)
    (hf : f ∈ selected) (hmean : "mean" ∈ aggs) (hstd : "std" ∈ aggs) :
    (∀ q : ℚ, lookupMetric m (f ++ "_std_sum_sqd") = some (some q) → 0 ≤ q) ∧
    lookupMetric m (f ++ "_mean_count") = some (some ((getCol d f).length : ℚ)) ∧
    lookupMetric m (f ++ "_std_count") = some (some ((getCol d f).length : ℚ)) := by
  have hm := query_ok_payload hq
  subst hm
  obtain ⟨h1, h2⟩ := (lookup_clientMetrics d selected aggs f hf).1 hmean
  obtain ⟨h3, h4, h5⟩ := (lookup_clientMetrics d selected aggs f hf).2 hstd
  refine ⟨?_, h2, h4⟩
  intro q hq2
  rw [h5] at hq2
  have h6 : pySumSq (getCol d f) = some q := Option.some.inj hq2
  exact pySumSq_nonneg _ q h6

/-- Witness for the amended C9, on a complete two-row column. -/
theorem claim_C9_witness :
    ∃ m, query [("x", [some (1 : ℚ), some 2])] ["x"] ["mean", "std"] = .ok m ∧
      ((∀ q : ℚ, lookupMetric m ("x" ++ "_std_sum_sqd") = some (some q) → 0 ≤ q) ∧
       lookupMetric m ("x" ++ "_mean_count") =
         some (some ((getCol [("x", [some (1 : ℚ), some 2])] "x").length : ℚ)) ∧
       lookupMetric m ("x" ++ "_std_count") =
         some (some ((getCol [("x", [some (1 : ℚ), some 2])] "x").length : ℚ))) :=
  ⟨_, rfl, claim_C9_amended [("x", [some (1 : ℚ), some 2])] ["x"] ["mean", "std"]
    _ "x" rfl (by decide) (by decide) (by decide)⟩

/-- C10: reply-schema compatibility. Every payload produced by a successful
`query` contains, for each requested feature and each requested method in
mean/std, exactly the keys the server-side accumulation reads, so
accumulating such a reply never fails on a missing key. -/
theorem claim_C10 (d : Dataset) (selected aggs : List String) (m : Metrics)
    (hq : query d selected aggs = .ok m) :
    WellFormed selected aggs m ∧
    (∀ st : AggStats, Inv selected aggs st →
      ∃ st2, accumulate_reply selected aggs m st = some st2) := by
  have hm := query_ok_payload hq
  subst hm
  have hwf : WellFormed selected aggs (clientMetrics d selected aggs) := by
    intro f hf
    constructor
    · intro hmean
      obtain ⟨h1, h2⟩ := (lookup_clientMetrics d selected aggs f hf).1 hmean
      exact ⟨by rw [h1]; rfl, by rw [h2]; rfl⟩
    · intro hstd
      obtain ⟨h1, h2, h3⟩ := (lookup_clientMetrics d selected aggs f hf).2 hstd
      exact ⟨by rw [h1]; rfl, by rw [h2]; rfl, by rw [h3]; rfl⟩
  refine ⟨hwf, ?_⟩
  intro st hInv
  obtain ⟨st2, h2, _⟩ := accumulate_reply_wf hwf st hInv
  exact ⟨st2, h2⟩

/-- Witness for C10 on a one-column dataset, with the initial dict state. -/
theorem claim_C10_witness :
    ∃ m, query [("x", [some (1 : ℚ)])] ["x"] ["mean", "std"] = .ok m ∧
      (WellFormed ["x"] ["mean", "std"] m ∧
       (∀ st : AggStats, Inv ["x"] ["mean", "std"] st →
         ∃ st2, accumulate_reply ["x"] ["mean", "std"] m st = some st2)) :=
  ⟨_, rfl, claim_C10 [("x", [some (1 : ℚ)])] ["x"] ["mean", "std"] _ rfl⟩

/-- C2: mean correctness. For every round whose accumulated totals for a
requested feature are `(sum S, count C)` with `C > 0`, the final mean entry is
exactly `S / C`; and in the concrete scenario with node A `(sum 30, count 3)`,
node B an error reply and node C `(sum 50, count 5)`, the mean for age is
`(30+50)/(3+5) = 10.0` with exactly 2 replies counted as valid. -/
theorem claim_C2 :
    (∀ (replies : List NodeReply) (selected aggs : List String) (f : String)
      (S C : ℚ) (q : MVal) (stats : AggStats),
      accumulate_all selected aggs replies (init_aggregation_stats selected aggs)
        = some stats →
      valid_count replies ≠ 0 → f ∈ selected → "mean" ∈ aggs →
      entry stats f "mean" = some ⟨some S, some C, q⟩ → 0 < C →
      ∃ out, aggregate_features replies selected aggs = .ok out ∧
        out.stats f "mean" = some (some (.rat (S / C)))) ∧
    (∃ out,
      aggregate_features
        [some [("age_mean_sum", some 30), ("age_mean_count", some 3)],
         none,
         some [("age_mean_sum", some 50), ("age_mean_count", some 5)]]
        ["age"] ["mean"] = .ok out ∧
      out.stats "age" "mean" = some (some (.rat ((30 + 50) / (3 + 5)))) ∧
      ((30 : ℚ) + 50) / (3 + 5) = 10 ∧
      valid_count
        [some [("age_mean_sum", some 30), ("age_mean_count", some 3)],
         none,
         some [("age_mean_sum", some 50), ("age_mean_count", some 5)]] = 2) := by
  have main : ∀ (replies : List NodeReply) (selected aggs : List String) (f : String)
      (S C : ℚ) (q : MVal) (stats : AggStats),
      accumulate_all selected aggs replies (init_aggregation_stats selected aggs)
        = some stats →
      valid_count replies ≠ 0 → f ∈ selected → "mean" ∈ aggs →
      entry stats f "mean" = some ⟨some S, some C, q⟩ → 0 < C →
      ∃ out, aggregate_features replies selected aggs = .ok out ∧
        out.stats f "mean" = some (some (.rat (S / C))) := by
    intro replies selected aggs f S C q stats hacc hval hf hm hentry hC
    obtain ⟨out, hagg, hchar, _⟩ := aggregate_features_ok hacc hval
    refine ⟨out, hagg, ?_⟩
    rw [hchar f "mean", if_pos hf, if_pos hm, compute_final_mean_eq stats f hentry]
    have hc0 : ¬ (Totals.mk (some S) (some C) q).count = some 0 := by
      simp only [Option.some.injEq]
      exact ne_of_gt hC
    rw [if_neg hc0]
    simp [mvDivVal, toFinal]
  refine ⟨main, ?_⟩
  obtain ⟨out, hagg, hmean⟩ :=
    main
      [some [("age_mean_sum", some 30), ("age_mean_count", some 3)],
       none,
       some [("age_mean_sum", some 50), ("age_mean_count", some 5)]]
      ["age"] ["mean"] "age" (0 + 30 + 50) (0 + 3 + 5) (some 0) _ rfl
      (by decide) (by decide) (by decide) rfl (by norm_num)
  refine ⟨out, hagg, ?_, by norm_num, by decide⟩
  rw [hmean]
  simp only [Option.some.injEq, AggVal.rat.injEq]
  norm_num

/-- Witness for C2: the three-node scenario itself (node A, error node B,
node C), instantiating the universally quantified part of the claim. -/
theorem claim_C2_witness :
    ∃ out,
      aggregate_features
        [some [("age_mean_sum", some 30), ("age_mean_count", some 3)],
         none,
         some [("age_mean_sum", some 50), ("age_mean_count", some 5)]]
        ["age"] ["mean"] = .ok out ∧
      out.stats "age" "mean" = some (some (.rat ((0 + 30 + 50) / (0 + 3 + 5)))) :=
  claim_C2.1
    [some [("age_mean_sum", some 30), ("age_mean_count", some 3)],
     none,
     some [("age_mean_sum", some 50), ("age_mean_count", some 5)]]
    ["age"] ["mean"] "age" (0 + 30 + 50) (0 + 3 + 5) (some 0) _ rfl
    (by decide) (by decide) (by decide) rfl (by norm_num)

/-- C5: no-valid-replies gate. A round fails with `NoValidReplies` iff every
reply is an error reply; with at least one valid (well-formed) reply the round
produces a `GlobalStatistics` result even if all other replies are errors; and
error replies contribute nothing to the accumulated totals (accumulation is
the same as accumulation over the valid replies only). -/
theorem claim_C5 (replies : List NodeReply) (selected aggs : List String) :
    (aggregate_features replies selected aggs = .error .noValidReplies ↔
      ∀ r ∈ replies, r = none) ∧
    ((∀ m, some m ∈ replies → WellFormed selected aggs m) →
      (∃ r ∈ replies, r ≠ none) →
      ∃ out, aggregate_features replies selected aggs = .ok out) ∧
    (∀ st, accumulate_all selected aggs replies st =
      accumulate_all selected aggs (replies.filter fun r => r.isSome) st) := by
  refine ⟨⟨?_, ?_⟩, ?_, ?_⟩
  · intro h
    rw [aggregate_features] at h
    cases hacc : accumulate_all selected aggs replies
        (init_aggregation_stats selected aggs) with
    | none =>
      rw [hacc] at h
      injection h with h2
      exact AggError.noConfusion h2
    | some stats =>
      rw [hacc] at h
      simp only [] at h
      by_cases hval : valid_count replies = 0
      · exact (valid_count_eq_zero_iff replies).mp hval
      · rw [if_neg hval] at h
        cases hfin : finalize stats selected aggs with
        | none =>
          rw [hfin] at h
          injection h with h2
          exact AggError.noConfusion h2
        | some p =>
          obtain ⟨fm, ws⟩ := p
          rw [hfin] at h
          simp only [] at h
          cases h
  · intro h
    have hfilter : replies.filter (fun r => r.isSome) = [] := by
      apply List.filter_eq_nil_iff.mpr
      intro r hr
      simp [h r hr]
    have hacc : accumulate_all selected aggs replies
        (init_aggregation_stats selected aggs) =
        some (init_aggregation_stats selected aggs) := by
      rw [accumulate_all_skip_errors, hfilter]
      rfl
    rw [aggregate_features, hacc]
    simp only []
    rw [if_pos ((valid_count_eq_zero_iff replies).mpr h)]
  · intro hwf hex
    obtain ⟨stats, hacc, _⟩ :=
      accumulate_all_wf replies hwf (init_aggregation_stats selected aggs)
        (Inv_init selected aggs)
    have hval : valid_count replies ≠ 0 := by
      intro h0
      obtain ⟨r, hr, hrne⟩ := hex
      exact hrne ((valid_count_eq_zero_iff replies).mp h0 r hr)
    obtain ⟨out, hagg, _, _⟩ := aggregate_features_ok hacc hval
    exact ⟨out, hagg⟩
  · exact accumulate_all_skip_errors selected aggs replies

/-- Witness for C5: one valid reply among errors yields a result; two error
replies yield the `NoValidReplies` failure. -/
theorem claim_C5_witness :
    (∃ out, aggregate_features
      [none, some [("age_mean_sum", some (30 : ℚ)), ("age_mean_count", some 3)]]
      ["age"] ["mean"] = .ok out) ∧
    aggregate_features ([none, none] : List NodeReply) ["age"] ["mean"] =
      .error .noValidReplies := by
  constructor
  · refine (claim_C5
      [none, some [("age_mean_sum", some (30 : ℚ)), ("age_mean_count", some 3)]]
      ["age"] ["mean"]).2.1 ?_ ?_
    · intro m hm
      simp only [List.mem_cons, List.not_mem_nil, or_false] at hm
      rcases hm with hm | hm
      · cases hm
      · cases Option.some.inj hm
        intro f hf
        simp only [List.mem_singleton] at hf
        subst hf
        constructor
        · intro _
          exact ⟨by decide, by decide⟩
        · intro hstd
          exact absurd hstd (by decide)
    · exact ⟨some [("age_mean_sum", some (30 : ℚ)), ("age_mean_count", some 3)],
        by simp, by simp⟩
  · refine (claim_C5 ([none, none] : List NodeReply) ["age"] ["mean"]).1.mpr ?_
    intro r hr
    rcases List.mem_cons.mp hr with h | h
    · exact h
    · simpa using h

/-- C6: insufficient-data isolation. In a round that produced a result, every
requested mean entry whose accumulated count is 0, and every requested std
entry whose accumulated count is at most 1, is set to null and a warning with
the corresponding message is logged — while every requested entry (in
particular all others) is still computed exactly as
`_compute_final_statistics` prescribes from the reduced totals, so an
entry-local failure never aborts the rest of the round's output. -/
theorem claim_C6 (replies : List NodeReply) (selected aggs : List String)
    (stats : AggStats) (out : RoundResult)
    (hacc : accumulate_all selected aggs replies (init_aggregation_stats selected aggs)
      = some stats)
    (hagg : aggregate_features replies selected aggs = .ok out) :
    (∀ f ∈ selected, "mean" ∈ aggs → ∀ t, entry stats f "mean" = some t →
      t.count = some 0 →
      out.stats f "mean" = some none ∧
      ("Warning: No data available for feature " ++ f ++ " mean calculation")
        ∈ out.warnings) ∧
    (∀ f ∈ selected, "std" ∈ aggs → ∀ (t : Totals) (c : ℚ),
      entry stats f "std" = some t → t.count = some c → c ≤ 1 →
      out.stats f "std" = some none ∧
      ("Warning: Insufficient data for feature " ++ f ++
        " std calculation (need > 1 samples)") ∈ out.warnings) ∧
    (∀ g ∈ selected, ∀ m ∈ aggs,
      out.stats g m = (compute_final_statistics stats g m).map toFinal) := by
  obtain ⟨hchar, hwn⟩ := aggregate_features_ok_inv hacc hagg
  refine ⟨?_, ?_, ?_⟩
  · intro f hf hm t ht hcnt
    have hcf : compute_final_statistics stats f "mean" =
        some (.err ("No data available for feature " ++ f ++ " mean calculation")) := by
      rw [compute_final_mean_eq stats f ht, if_pos hcnt]
    constructor
    · rw [hchar f "mean", if_pos hf, if_pos hm, hcf]
      rfl
    · exact hwn f hf "mean" hm _ hcf
  · intro f hf hm t c ht hcnt hle
    have hcf : compute_final_statistics stats f "std" =
        some (.err ("Insufficient data for feature " ++ f ++
          " std calculation (need > 1 samples)")) := by
      rw [compute_final_std_eq stats f ht, hcnt]
      simp only []
      rw [if_pos hle]
    constructor
    · rw [hchar f "std", if_pos hf, if_pos hm, hcf]
      rfl
    · exact hwn f hf "std" hm _ hcf
  · intro g hg m hm
    rw [hchar g m, if_pos hg, if_pos hm]

/-- Witness for C6: one node reporting an empty column for feature a and one
row for feature b — the a-mean entry is null with a logged warning while the
b-mean entry is still 1. -/
theorem claim_C6_witness :
    ∃ out,
      aggregate_features
        [some [("a_mean_sum", some (0 : ℚ)), ("a_mean_count", some 0),
               ("b_mean_sum", some 1), ("b_mean_count", some 1)]]
        ["a", "b"] ["mean"] = .ok out ∧
      out.stats "a" "mean" = some none ∧
      ("Warning: No data available for feature " ++ "a" ++ " mean calculation")
        ∈ out.warnings ∧
      out.stats "b" "mean" = some (some (.rat 1)) := by
  obtain ⟨out, hagg, hchar, _⟩ :=
    aggregate_features_ok
      (show accumulate_all ["a", "b"] ["mean"]
        [some [("a_mean_sum", some (0 : ℚ)), ("a_mean_count", some 0),
               ("b_mean_sum", some 1), ("b_mean_count", some 1)]]
        (init_aggregation_stats ["a", "b"] ["mean"]) = some _ from rfl)
      (show valid_count
        [some [("a_mean_sum", some (0 : ℚ)), ("a_mean_count", some 0),
               ("b_mean_sum", some 1), ("b_mean_count", some 1)]] ≠ 0 by decide)
  have h := claim_C6
    [some [("a_mean_sum", some (0 : ℚ)), ("a_mean_count", some 0),
           ("b_mean_sum", some 1), ("b_mean_count", some 1)]]
    ["a", "b"] ["mean"] _ out rfl hagg
  obtain ⟨hnull, hwarn⟩ := h.1 "a" (by decide) (by decide) _ rfl
    (by simp [updMean, zeroTotals, mvAdd])
  refine ⟨out, hagg, hnull, hwarn, ?_⟩
  have hb := hchar "b" "mean"
  rw [if_pos (by decide : ("b" : String) ∈ ["a", "b"]),
    if_pos (by decide : ("mean" : String) ∈ ["mean"])] at hb
  rw [hb]
  norm_num [compute_final_statistics, entry, fupd, init_aggregation_stats,
    init_feature_stats, updMean, zeroTotals, mvAdd, mvDivVal, toFinal,
    List.foldl_cons, List.foldl_nil]

/-- C7: unknown-method tolerance. A method outside mean/std in the request is
skipped by the node-side computation without failing the reply (the produced
metrics are those of the recognized methods only), the round is not aborted by
it (with well-formed replies and at least one valid reply the round still
returns a result), the unknown method's entry is null with a logged
"Unsupported aggregation method" warning, and the mean entry is still produced
from the accumulated totals. -/
theorem claim_C7 (replies : List NodeReply) (selected aggs : List String)
    (f mu : String) (d : Dataset)
    (hmu1 : mu ≠ "mean") (hmu2 : mu ≠ "std") (hmu : mu ∈ aggs)
    (hmean : "mean" ∈ aggs) (hf : f ∈ selected)
    (hwf : ∀ m, some m ∈ replies → WellFormed selected aggs m)
    (hex : ∃ r ∈ replies, r ≠ none) :
    query d selected aggs =
      query d selected (aggs.filter fun a => a == "mean" || a == "std") ∧
    ∃ out, aggregate_features replies selected aggs = .ok out ∧
      out.stats f mu = some none ∧
      ("Warning: Unsupported aggregation method: " ++ mu) ∈ out.warnings ∧
      (∀ (stats : AggStats) (S C : ℚ) (q : MVal),
        accumulate_all selected aggs replies (init_aggregation_stats selected aggs)
          = some stats →
        entry stats f "mean" = some ⟨some S, some C, q⟩ → C ≠ 0 →
        out.stats f "mean" = some (some (.rat (S / C)))) := by
  refine ⟨query_skips_unknown_methods d selected aggs, ?_⟩
  obtain ⟨stats0, hacc0, _⟩ :=
    accumulate_all_wf replies hwf (init_aggregation_stats selected aggs)
      (Inv_init selected aggs)
  have hval : valid_count replies ≠ 0 := by
    intro h0
    obtain ⟨r, hr, hrne⟩ := hex
    exact hrne ((valid_count_eq_zero_iff replies).mp h0 r hr)
  obtain ⟨out, hagg, hchar, hwn⟩ := aggregate_features_ok hacc0 hval
  have hcfu : compute_final_statistics stats0 f mu =
      some (.err ("Unsupported aggregation method: " ++ mu)) :=
    compute_final_other_eq stats0 f hmu1 hmu2
  refine ⟨out, hagg, ?_, ?_, ?_⟩
  · rw [hchar f mu, if_pos hf, if_pos hmu, hcfu]
    rfl
  · exact hwn f hf mu hmu _ hcfu
  · intro stats S C q hacc hentry hC0
    rw [hacc0] at hacc
    cases Option.some.inj hacc
    rw [hchar f "mean", if_pos hf, if_pos hmean,
      compute_final_mean_eq stats0 f hentry]
    rw [if_neg (by simp only [Option.some.injEq]; exact hC0)]
    simp [mvDivVal, toFinal]

/-- Witness for C7: requesting median alongside mean for one node with column
x = [1, 3]. -/
theorem claim_C7_witness :
    (query [("x", [some (1 : ℚ), some 3])] ["x"] ["mean", "median"] =
      query [("x", [some (1 : ℚ), some 3])] ["x"]
        ((["mean", "median"] : List String).filter
          fun a => a == "mean" || a == "std")) ∧
    ∃ out,
      aggregate_features [some [("x_mean_sum", some (4 : ℚ)), ("x_mean_count", some 2)]]
        ["x"] ["mean", "median"] = .ok out ∧
      out.stats "x" "median" = some none ∧
      ("Warning: Unsupported aggregation method: " ++ "median") ∈ out.warnings ∧
      out.stats "x" "mean" = some (some (.rat ((0 + 4) / (0 + 2)))) := by
  have hwf : ∀ m, some m ∈
      [some [("x_mean_sum", some (4 : ℚ)), ("x_mean_count", some 2)]] →
      WellFormed ["x"] ["mean", "median"] m := by
    intro m hm
    simp only [List.mem_cons, List.not_mem_nil, or_false] at hm
    cases Option.some.inj hm
    intro g hg
    simp only [List.mem_singleton] at hg
    subst hg
    constructor
    · intro _
      exact ⟨by decide, by decide⟩
    · intro hstd
      exact absurd hstd (by decide)
  have hex : ∃ r ∈ [some [("x_mean_sum", some (4 : ℚ)), ("x_mean_count", some 2)]],
      r ≠ none :=
    ⟨some [("x_mean_sum", some (4 : ℚ)), ("x_mean_count", some 2)],
      by simp, by simp⟩
  obtain ⟨hq, out, hagg, hnull, hwarn, hmean⟩ :=
    claim_C7 [some [("x_mean_sum", some (4 : ℚ)), ("x_mean_count", some 2)]]
      ["x"] ["mean", "median"] "x" "median" [("x", [some (1 : ℚ), some 3])]
      (by decide) (by decide) (by decide) (by decide) (by decide) hwf hex
  exact ⟨hq, out, hagg, hnull, hwarn,
    hmean _ (0 + 4) (0 + 2) (some 0) rfl rfl (by norm_num)⟩

/-- C3: std correctness. For every round whose accumulated std totals for a
requested feature are `(sum S, count C, sum of squares Q)` with `C > 1`, the
final std entry is the float `sqrt((Q − C·(S/C)²)/(C−1))` (with the variance
clamped at 0, which changes nothing when the variance is nonnegative); and for
the known values `[2,4,4,4,5,5,7,9]` split arbitrarily across at least 2
nodes, the reduced sample standard deviation equals the sample (Bessel, N−1)
standard deviation computed directly on the full list — exactly, since the
model computes with exact rationals. -/
theorem claim_C3 :
    (∀ (replies : List NodeReply) (selected aggs : List String) (f : String)
      (S C Q : ℚ) (stats : AggStats),
      accumulate_all selected aggs replies (init_aggregation_stats selected aggs)
        = some stats →
      valid_count replies ≠ 0 → f ∈ selected → "std" ∈ aggs →
      entry stats f "std" = some ⟨some S, some C, some Q⟩ → 1 < C →
      ∃ out, aggregate_features replies selected aggs = .ok out ∧
        out.stats f "std" = some (some (.sqrt
          (if (Q - C * (S / C) ^ 2) / (C - 1) < 0 then 0
           else (Q - C * (S / C) ^ 2) / (C - 1)))) ∧
        (0 ≤ (Q - C * (S / C) ^ 2) / (C - 1) →
          out.stats f "std" =
            some (some (.sqrt ((Q - C * (S / C) ^ 2) / (C - 1)))))) ∧
    (∀ parts : List (List ℚ),
      parts.flatten = [2, 4, 4, 4, 5, 5, 7, 9] → 2 ≤ parts.length →
      ∃ out,
        aggregate_features
          ((parts.map fun vs => [("x", vs.map some)]).map
            fun d => (query d ["x"] ["std"]).toOption)
          ["x"] ["std"] = .ok out ∧
        out.stats "x" "std" =
          some (some (.sqrt (sampleVariance [2, 4, 4, 4, 5, 5, 7, 9])))) := by
  constructor
  · intro replies selected aggs f S C Q stats hacc hval hf hm hentry hC
    obtain ⟨out, hagg, hchar, _⟩ := aggregate_features_ok hacc hval
    have hout : out.stats f "std" = some (some (.sqrt
        (if (Q - C * (S / C) ^ 2) / (C - 1) < 0 then 0
         else (Q - C * (S / C) ^ 2) / (C - 1)))) := by
      rw [hchar f "std", if_pos hf, if_pos hm, compute_final_std_eq stats f hentry]
      simp only []
      rw [if_neg (not_le.mpr hC)]
      simp [toFinal]
    refine ⟨out, hagg, hout, ?_⟩
    intro hnn
    rw [hout, if_neg (not_lt.mpr hnn)]
  · intro parts hflat hlen
    have hcols : ∀ d ∈ (parts.map fun vs => [("x", vs.map some)]),
        ∀ g ∈ (["x"] : List String), g ∈ columnsOf d := by
      intro d hd g hg
      simp only [List.mem_singleton] at hg
      subst hg
      obtain ⟨vs, _, rfl⟩ := List.mem_map.mp hd
      simp [columnsOf]
    rw [replies_of_datasets _ ["x"] ["std"] hcols]
    obtain ⟨stats, hacc, _, hchar⟩ :=
      accumulate_all_client ["x"] ["std"] (by decide) (by decide)
        (parts.map fun vs => [("x", vs.map some)])
        (init_aggregation_stats ["x"] ["std"]) (Inv_init _ _)
    have hU : unionCol (parts.map fun vs => [("x", vs.map some)]) "x" =
        parts.flatten.map some := by
      rw [unionCol, List.map_map]
      have h1 : ((fun d => getCol d "x") ∘ fun vs => [("x", vs.map some)]) =
          fun vs : List ℚ => vs.map some := by
        funext vs
        simp [getCol]
      rw [h1, flatten_map_some]
    have hentry : entry stats "x" "std" = some ⟨some parts.flatten.sum,
        some (parts.flatten.length : ℚ),
        some ((parts.flatten.map fun v => v * v).sum)⟩ := by
      rw [hchar "x" "std", if_pos ⟨by decide, by decide, Or.inr rfl⟩, entry_init,
        if_pos ⟨by decide, Or.inr rfl, by decide⟩, hU]
      simp only [Option.map_some', colUpd,
        if_neg (show ¬ ("std" : String) = "mean" by decide), updStd, zeroTotals,
        pySum_map_some, pySumSq_map_some, List.length_map, mvAdd_zero_left]
    rw [hflat] at hentry
    have hval : valid_count ((parts.map fun vs => [("x", vs.map some)]).map
        fun d => some (clientMetrics d ["x"] ["std"])) ≠ 0 := by
      rw [valid_count_map_some, List.length_map]
      omega
    obtain ⟨out, hagg, hchar2, _⟩ := aggregate_features_ok hacc hval
    refine ⟨out, hagg, ?_⟩
    rw [hchar2 "x" "std", if_pos (by decide), if_pos (by decide),
      compute_final_std_eq stats "x" hentry]
    norm_num [toFinal, sampleVariance]

/-- Witness for C3: the split `[2,4,4,4] / [5,5,7,9]` across two nodes. -/
theorem claim_C3_witness :
    ∃ out,
      aggregate_features
        ((([[2, 4, 4, 4], [5, 5, 7, 9]] : List (List ℚ)).map
            fun vs => [("x", vs.map some)]).map
          fun d => (query d ["x"] ["std"]).toOption)
        ["x"] ["std"] = .ok out ∧
      out.stats "x" "std" =
        some (some (.sqrt (sampleVariance [2, 4, 4, 4, 5, 5, 7, 9]))) :=
  claim_C3.2 [[2, 4, 4, 4], [5, 5, 7, 9]] (by norm_num) (by norm_num)

end FedAnalytics
